import Mathlib

/-!
# wio-terminal image converter: packed-pixel encoders and stream assembly

A shallow embedding of `main.go`:

* the two pixel encoders `rgb332` and `rgb565`,
* `converterImpl`, which opens and decodes the source image, builds the output
  buffer (4-byte header, then one encoded group per pixel) and writes it,
* the two `Converter` implementations and `main`,
* `converterSteps`, the run of `converterImpl` as a sequence of steps that also
  lists the header writes, the sampling calls and the encoder calls.

Go's `uint32` values are natural numbers, with the left shifts reduced modulo
`2 ^ 32`; Go's `int` values are integers; a `bytes.Buffer` is the list of the
bytes written to it.  Calls into the operating system and the image decoder
are answered by an `Env`, and every such call is recorded in a trace.
-/

namespace Wio

/-! ## Bytes and buffers -/

/-- The content of a `bytes.Buffer`: the bytes written so far, oldest first. -/
abbrev Buffer := List Nat

/-- Go's conversion `byte(v)` of an unsigned value: the low 8 bits of `v`. -/
def byte (v : Nat) : Nat := v % 256

/-- Go's conversion `byte(v)` of a signed `int`: the low 8 bits of `v`. -/
def byteOfInt (v : Int) : Nat := (v % 256).toNat

/-- Go's `v << n` on `uint32`: bits shifted beyond bit 31 are lost. -/
def shl32 (v n : Nat) : Nat := (v <<< n) % 2 ^ 32

/-- The method `buf.WriteByte(c)`: appends the byte `c`. -/
def WriteByte (buf : Buffer) (c : Nat) : Buffer := buf ++ [c]

/-! ## Pixel encoders -/

/-- The function `rgb332` (main.go, lines 16-23). -/
def rgb332 (r g b : Nat) (buf : Buffer) : Buffer :=
  let r := r >>> 5
  let g := g >>> 5
  let b := b >>> 6
  let pixel := byte (shl32 r 5 ||| shl32 g 2 ||| b)
  WriteByte buf pixel

/-- The function `rgb565` (main.go, lines 24-32). -/
def rgb565 (r g b : Nat) (buf : Buffer) : Buffer :=
  let r := r >>> 3
  let g := g >>> 2
  let b := b >>> 3
  let value := shl32 r 11 ||| shl32 g 5 ||| b
  let buf := WriteByte buf (byte (value >>> 8))
  WriteByte buf (byte (value &&& 0xFF))

/-! ## Decoded images -/

/-- The four `uint32` results of `color.Color.RGBA()`. -/
structure RGBA where
  r : Nat
  g : Nat
  b : Nat
  a : Nat
deriving DecidableEq, Repr

/-- What `converterImpl` uses of a decoded `image.Image`: `Dx` and `Dy` are
`img.Bounds().Dx()` and `img.Bounds().Dy()` (Go `int`), and `At x y` is
`img.At(x, y).RGBA()`. -/
structure Image where
  Dx : Int
  Dy : Int
  At : Int → Int → RGBA

/-! ## Errors, environment and traces -/

/-- Go `error` values: one returned by the `os` or `image` packages, or one
built by `fmt.Errorf` with the verb `%w` around another error. -/
inductive GoError where
  | external (msg : String)
  | wrapped (context : String) (cause : GoError)
deriving DecidableEq, Repr

/-- The method `err.Error()`. -/
def GoError.Error : GoError → String
  | .external msg => msg
  | .wrapped context cause => context ++ ": " ++ cause.Error

/-- The call `fmt.Errorf(context + ": %w", err)`. -/
def Errorf (context : String) (err : GoError) : GoError := .wrapped context err

/-- How the world outside the process answers: `Open path` is the error of
`os.Open(path)` (`none` for `nil`), `Decode path` the result of `image.Decode`
on the file opened at `path`, `Create path` the error of `os.Create(path)`, and
`Write path data` the error of writing `data` to the file created at `path`. -/
structure Env where
  Open : String → Option GoError
  Decode : String → Except GoError Image
  Create : String → Option GoError
  Write : String → Buffer → Option GoError

/-- One call that leaves the process, with whether it succeeded. -/
inductive Event where
  | Open (path : String) (ok : Bool)
  | Decode (path : String) (ok : Bool)
  | Create (path : String) (ok : Bool)
  | Write (path : String) (data : Buffer) (ok : Bool)
  | Close (path : String)
deriving DecidableEq, Repr

/-- The result of running a converter: the returned `error` (`none` for `nil`)
and the calls made, in order. -/
structure Run where
  err : Option GoError
  events : List Event
deriving DecidableEq, Repr

/-! ## Stream assembly -/

/-- The buffer `converterImpl` builds from a decoded image (main.go, lines
44-64): the four header bytes, then the two nested loops
`for y := 0; y < height; y++` and `for x := 0; x < width; x++`, which run
through `y = 0, ..., height - 1` and `x = 0, ..., width - 1` (not at all when the
bound is not positive). -/
def buildBuffer (img : Image) (conv : Nat → Nat → Nat → Buffer → Buffer) : Buffer :=
  let width := img.Dx
  let height := img.Dy
  let buf : Buffer := []
  let buf := WriteByte buf (byteOfInt (Int.land width 0xFF))
  let buf := WriteByte buf (byteOfInt (Int.land (width >>> 8) 0xFF))
  let buf := WriteByte buf (byteOfInt (Int.land height 0xFF))
  let buf := WriteByte buf (byteOfInt (Int.land (height >>> 8) 0xFF))
  (List.range height.toNat).foldl
    (fun buf (y : Nat) =>
      (List.range width.toNat).foldl
        (fun buf (x : Nat) =>
          let c := img.At (x : Int) (y : Int)
          let r := c.r >>> 8
          let g := c.g >>> 8
          let b := c.b >>> 8
          conv r g b buf)
        buf)
    buf

/-- The function `converterImpl` (main.go, lines 34-76).  The deferred `Close`
calls run when the function returns, the later registered one first. -/
def converterImpl (env : Env) (inp out : String)
    (conv : Nat → Nat → Nat → Buffer → Buffer) : Run :=
  match env.Open inp with
  | some err =>
    { err := some (Errorf "error opening image file" err),
      events := [.Open inp false] }
  | none =>
    match env.Decode inp with
    | .error err =>
      { err := some (Errorf "error decoding image" err),
        events := [.Open inp true, .Decode inp false, .Close inp] }
    | .ok img =>
      let buf := buildBuffer img conv
      match env.Create out with
      | some err =>
        { err := some (Errorf "error creating output file" err),
          events := [.Open inp true, .Decode inp true, .Create out false, .Close inp] }
      | none =>
        match env.Write out buf with
        | some err =>
          { err := some (Errorf "error writing to output file" err),
            events := [.Open inp true, .Decode inp true, .Create out true,
              .Write out buf false, .Close out, .Close inp] }
        | none =>
          { err := none,
            events := [.Open inp true, .Decode inp true, .Create out true,
              .Write out buf true, .Close out, .Close inp] }

/-- The interface `Converter` with its two implementations, `RGB332Converter`
and `RGB565Converter`. -/
inductive Converter where
  | RGB332Converter
  | RGB565Converter
deriving DecidableEq, Repr

/-- The method `Convert` of the two converters (main.go, lines 80-88). -/
def Converter.Convert (c : Converter) (env : Env) (inp out : String) : Run :=
  match c with
  | .RGB332Converter => converterImpl env inp out rgb332
  | .RGB565Converter => converterImpl env inp out rgb565

/-! ## Command line -/

/-- How a run of `main` ends: it returns, having printed `stdout` and made the
calls `events`, or it stops with a run-time panic. -/
inductive Outcome where
  | returned (stdout : String) (events : List Event)
  | panicked (reason : String)
deriving DecidableEq, Repr

/-- The function `main` (main.go, lines 90-112) on the argument vector
`os.Args`.  Indexing `os.Args[0]` in an empty vector is a run-time panic. -/
def main (env : Env) (Args : List String) : Outcome :=
  if Args.length < 4 then
    match Args[0]? with
    | none => .panicked "index out of range [0] with length 0"
    | some prog =>
      .returned ("usage: " ++ prog ++ " <rbg332 or rgb565> <:inputFileName> <:outputFilename>") []
  else
    let converter : Option Converter :=
      if Args.getD 1 "" = "rgb332" then some .RGB332Converter
      else if Args.getD 1 "" = "rgb565" then some .RGB565Converter
      else none
    match converter with
    | none =>
      .returned ("error: " ++ Args.getD 1 "" ++
        " is not a valid converter(should be rgb332 or rgb565)") []
    | some converter =>
      let run := converter.Convert env (Args.getD 2 "") (Args.getD 3 "")
      match run.err with
      | some err => .returned ("error: " ++ err.Error) run.events
      | none => .returned "" run.events

/-! ## The sequence of steps of `converterImpl` -/

/-- One step of `converterImpl`, finer than `Event`: a call that leaves the
process, a `buf.WriteByte(c)` made by `converterImpl` itself (the header), the
sampling call `img.At(x, y).RGBA()`, or the encoder call `conv(r, g, b, &buf)`. -/
inductive Step where
  | call (e : Event)
  | WriteByte (c : Nat)
  | At (x y : Int)
  | conv (r g b : Nat)
deriving DecidableEq, Repr

/-- The steps of main.go, lines 48-64, in program order: the four header
writes, then for each `y` and each `x` the sampling call followed by the
encoder call on the channels shifted right by 8. -/
def bufferSteps (img : Image) : List Step :=
  let width := img.Dx
  let height := img.Dy
  [Step.WriteByte (byteOfInt (Int.land width 0xFF)),
    Step.WriteByte (byteOfInt (Int.land (width >>> 8) 0xFF)),
    Step.WriteByte (byteOfInt (Int.land height 0xFF)),
    Step.WriteByte (byteOfInt (Int.land (height >>> 8) 0xFF))]
  ++ (List.range height.toNat).flatMap (fun (y : Nat) =>
      (List.range width.toNat).flatMap (fun (x : Nat) =>
        let c := img.At (x : Int) (y : Int)
        let r := c.r >>> 8
        let g := c.g >>> 8
        let b := c.b >>> 8
        [Step.At (x : Int) (y : Int), Step.conv r g b]))

/-- The effect of one step on the buffer, for the encoder `conv`. -/
def Step.apply (conv : Nat → Nat → Nat → Buffer → Buffer) (buf : Buffer) : Step → Buffer
  | .call _ => buf
  | .WriteByte c => Wio.WriteByte buf c
  | .At _ _ => buf
  | .conv r g b => conv r g b buf

/-- The outside call made by a step, if it is one. -/
def Step.event : Step → Option Event
  | .call e => some e
  | _ => none

/-- The steps of `converterImpl` (main.go, lines 34-76) in program order; the
outside calls among them are the `events` of `converterImpl`. -/
def converterSteps (env : Env) (inp out : String)
    (conv : Nat → Nat → Nat → Buffer → Buffer) : List Step :=
  match env.Open inp with
  | some _ => [.call (.Open inp false)]
  | none =>
    match env.Decode inp with
    | .error _ => [.call (.Open inp true), .call (.Decode inp false), .call (.Close inp)]
    | .ok img =>
      [.call (.Open inp true), .call (.Decode inp true)] ++ bufferSteps img ++
        (match env.Create out with
          | some _ => [.call (.Create out false), .call (.Close inp)]
          | none =>
            match env.Write out (buildBuffer img conv) with
            | some _ =>
              [.call (.Create out true), .call (.Write out (buildBuffer img conv) false),
                .call (.Close out), .call (.Close inp)]
            | none =>
              [.call (.Create out true), .call (.Write out (buildBuffer img conv) true),
                .call (.Close out), .call (.Close inp)])

/-! ## Sample inputs -/

/-- A 2x1 image: the pixel at (0, 0) is opaque red, the pixel at (1, 0) opaque
blue, as 16-bit channels. -/
def redBlue : Image :=
  { Dx := 2, Dy := 1,
    At := fun x _ => if x = 0 then ⟨0xFFFF, 0, 0, 0xFFFF⟩ else ⟨0, 0, 0xFFFF, 0xFFFF⟩ }

/-- An image 65538 pixels wide and one pixel high, opaque white throughout. -/
def wideImage : Image :=
  { Dx := 65538, Dy := 1, At := fun _ _ => ⟨0xFFFF, 0xFFFF, 0xFFFF, 0xFFFF⟩ }

/-- An environment in which every file can be opened, created and written,
and every source decodes to `img`. -/
def okEnv (img : Image) : Env :=
  { Open := fun _ => none, Decode := fun _ => .ok img,
    Create := fun _ => none, Write := fun _ _ => none }

/-- An environment in which the source file cannot be opened. -/
def noSourceEnv : Env :=
  { Open := fun _ => some (.external "no such file or directory"),
    Decode := fun _ => .ok redBlue, Create := fun _ => none, Write := fun _ _ => none }

/-- An environment in which the source opens but is not a decodable image. -/
def badImageEnv : Env :=
  { Open := fun _ => none, Decode := fun _ => .error (.external "image: unknown format"),
    Create := fun _ => none, Write := fun _ _ => none }

/-- An environment in which the source decodes to `img` but the destination
cannot be created. -/
def noCreateEnv (img : Image) : Env :=
  { Open := fun _ => none, Decode := fun _ => .ok img,
    Create := fun _ => some (.external "permission denied"), Write := fun _ _ => none }

/-- An environment in which the source decodes to `img` and the destination
is created, but writing to it fails. -/
def noWriteEnv (img : Image) : Env :=
  { Open := fun _ => none, Decode := fun _ => .ok img,
    Create := fun _ => none, Write := fun _ _ => some (.external "no space left on device") }

/-- The 2x1 red and blue image with other alpha values: the pixels are
translucent. -/
def redBlueTranslucent : Image :=
  { Dx := 2, Dy := 1,
    At := fun x _ => if x = 0 then ⟨0xFFFF, 0, 0, 0x8000⟩ else ⟨0, 0, 0xFFFF, 0x1234⟩ }

/-! ## Theorems -/

/-- A field shifted left by `k` and or-ed with a value below `2 ^ k` is their sum. -/
theorem shiftLeft_lor_eq_add (x a k : Nat) (ha : a < 2 ^ k) :
    (x <<< k) ||| a = x * 2 ^ k + a := by
  rw [Nat.shiftLeft_eq, Nat.mul_comm, Nat.mul_add_lt_is_or ha]

/-- Three fields packed with shifts and or: when the two lower fields fit their
widths `j` and `k`, the packed value is the positional sum of the fields. -/
theorem lor_pack (r g b j k : Nat) (hg : g < 2 ^ j) (hb : b < 2 ^ k) :
    (r <<< (j + k)) ||| (g <<< k) ||| b = r * 2 ^ (j + k) + g * 2 ^ k + b := by
  have h1 : (g <<< k) ||| b = g * 2 ^ k + b := shiftLeft_lor_eq_add g b k hb
  have h2 : g * 2 ^ k + b < 2 ^ (j + k) := by
    have h3 : (g + 1) * 2 ^ k ≤ 2 ^ j * 2 ^ k := Nat.mul_le_mul_right _ hg
    rw [Nat.pow_add]
    have h4 : (g + 1) * 2 ^ k = g * 2 ^ k + 2 ^ k := by ring
    omega
  rw [Nat.lor_assoc, h1, shiftLeft_lor_eq_add r _ (j + k) h2]
  ring

/-- Arithmetic form of the RGB332 packing on fields that fit their widths. -/
theorem pack332_eq (r g b : Nat) (hg : g < 8) (hb : b < 4) :
    (r <<< 5) ||| (g <<< 2) ||| b = r * 32 + g * 4 + b := by
  have h := lor_pack r g b 3 2 (by simpa using hg) (by simpa using hb)
  simpa using h

/-- Arithmetic form of the RGB565 packing on fields that fit their widths. -/
theorem pack565_eq (r g b : Nat) (hg : g < 64) (hb : b < 32) :
    (r <<< 11) ||| (g <<< 5) ||| b = r * 2048 + g * 32 + b := by
  have h := lor_pack r g b 6 5 (by simpa using hg) (by simpa using hb)
  simpa using h

/-- The encoder `rgb332` only appends: its result is the old buffer followed by
what it writes to an empty buffer. -/
theorem rgb332_append (r g b : Nat) (buf : Buffer) :
    rgb332 r g b buf = buf ++ rgb332 r g b [] := by
  simp [rgb332, WriteByte]

/-- The encoder `rgb565` only appends: its result is the old buffer followed by
what it writes to an empty buffer. -/
theorem rgb565_append (r g b : Nat) (buf : Buffer) :
    rgb565 r g b buf = buf ++ rgb565 r g b [] := by
  simp [rgb565, WriteByte]

/-- The byte `rgb332` appends, in arithmetic form, for 8-bit channels. -/
theorem rgb332_eq (r g b : Nat) (buf : Buffer) (hr : r ≤ 255) (hg : g ≤ 255)
    (hb : b ≤ 255) : rgb332 r g b buf = buf ++ [r / 32 * 32 + g / 32 * 4 + b / 64] := by
  have e1 : shl32 (r >>> 5) 5 = (r >>> 5) <<< 5 := by
    simp only [shl32, Nat.shiftRight_eq_div_pow, Nat.shiftLeft_eq]; omega
  have e2 : shl32 (g >>> 5) 2 = (g >>> 5) <<< 2 := by
    simp only [shl32, Nat.shiftRight_eq_div_pow, Nat.shiftLeft_eq]; omega
  have hg5 : g >>> 5 < 8 := by rw [Nat.shiftRight_eq_div_pow]; omega
  have hb6 : b >>> 6 < 4 := by rw [Nat.shiftRight_eq_div_pow]; omega
  simp only [rgb332, WriteByte, byte]
  rw [e1, e2, pack332_eq _ _ _ hg5 hb6]
  simp only [Nat.shiftRight_eq_div_pow]
  congr 2
  omega

/-- The 16-bit value `rgb565` packs, in arithmetic form, for 8-bit channels. -/
theorem value565_eq (r g b : Nat) (hr : r ≤ 255) (hg : g ≤ 255) (hb : b ≤ 255) :
    shl32 (r >>> 3) 11 ||| shl32 (g >>> 2) 5 ||| (b >>> 3)
      = r / 8 * 2048 + g / 4 * 32 + b / 8 := by
  have e1 : shl32 (r >>> 3) 11 = (r >>> 3) <<< 11 := by
    simp only [shl32, Nat.shiftRight_eq_div_pow, Nat.shiftLeft_eq]; omega
  have e2 : shl32 (g >>> 2) 5 = (g >>> 2) <<< 5 := by
    simp only [shl32, Nat.shiftRight_eq_div_pow, Nat.shiftLeft_eq]; omega
  have hg2 : g >>> 2 < 64 := by rw [Nat.shiftRight_eq_div_pow]; omega
  have hb3 : b >>> 3 < 32 := by rw [Nat.shiftRight_eq_div_pow]; omega
  rw [e1, e2, pack565_eq _ _ _ hg2 hb3]
  simp only [Nat.shiftRight_eq_div_pow]

/-- The low 8 bits selected by `& 0xFF` are the remainder modulo 256. -/
theorem and_0xFF (v : Nat) : v &&& 0xFF = v % 256 :=
  Nat.and_pow_two_sub_one_eq_mod v 8

/-- The two bytes `rgb565` appends, in arithmetic form, for 8-bit channels. -/
theorem rgb565_eq (r g b : Nat) (buf : Buffer) (hr : r ≤ 255) (hg : g ≤ 255)
    (hb : b ≤ 255) :
    rgb565 r g b buf = buf ++ [(r / 8 * 2048 + g / 4 * 32 + b / 8) / 256,
      (r / 8 * 2048 + g / 4 * 32 + b / 8) % 256] := by
  simp only [rgb565, WriteByte, byte]
  rw [value565_eq r g b hr hg hb]
  simp only [and_0xFF, Nat.shiftRight_eq_div_pow, List.append_assoc, List.singleton_append]
  congr 2
  · omega
  · congr 1
    omega

/-- Claim C1: for 8-bit channels `r`, `g`, `b` and any buffer, `rgb332` appends
exactly one byte, equal to `((r>>5)<<5) | ((g>>5)<<2) | (b>>6)`: the three red
bits are the most significant, then the three green bits, then the two blue
bits (layout RRRGGGBB), and the value fits a byte.  White gives 0xFF, black
0x00, red 0xE0, green 0x1C and blue 0x03. -/
theorem rgb332_spec (r g b : Nat) (buf : Buffer) (hr : r ≤ 255) (hg : g ≤ 255)
    (hb : b ≤ 255) :
    rgb332 r g b buf = buf ++ [((r >>> 5) <<< 5) ||| ((g >>> 5) <<< 2) ||| (b >>> 6)]
    ∧ (rgb332 r g b buf).length = buf.length + 1
    ∧ ((r >>> 5) <<< 5) ||| ((g >>> 5) <<< 2) ||| (b >>> 6)
        = (r >>> 5) * 32 + (g >>> 5) * 4 + (b >>> 6)
    ∧ r >>> 5 < 8 ∧ g >>> 5 < 8 ∧ b >>> 6 < 4
    ∧ ((r >>> 5) <<< 5) ||| ((g >>> 5) <<< 2) ||| (b >>> 6) < 256
    ∧ rgb332 255 255 255 buf = buf ++ [0xFF]
    ∧ rgb332 0 0 0 buf = buf ++ [0x00]
    ∧ rgb332 255 0 0 buf = buf ++ [0xE0]
    ∧ rgb332 0 255 0 buf = buf ++ [0x1C]
    ∧ rgb332 0 0 255 buf = buf ++ [0x03] := by
  have hr5 : r >>> 5 < 8 := by rw [Nat.shiftRight_eq_div_pow]; omega
  have hg5 : g >>> 5 < 8 := by rw [Nat.shiftRight_eq_div_pow]; omega
  have hb6 : b >>> 6 < 4 := by rw [Nat.shiftRight_eq_div_pow]; omega
  have hp := pack332_eq (r >>> 5) (g >>> 5) (b >>> 6) hg5 hb6
  have hv : rgb332 r g b buf
      = buf ++ [((r >>> 5) <<< 5) ||| ((g >>> 5) <<< 2) ||| (b >>> 6)] := by
    rw [rgb332_eq r g b buf hr hg hb, hp]
    simp only [Nat.shiftRight_eq_div_pow]
  refine ⟨hv, ?_, hp, hr5, hg5, hb6, ?_, ?_, ?_, ?_, ?_, ?_⟩
  · rw [hv]; simp
  · rw [hp]; omega
  all_goals (rw [rgb332_append]; rfl)

/-- Claim C1, instance: the colour (200, 100, 50) appended to a buffer holding
two bytes. -/
theorem rgb332_spec_witness :
    (200 ≤ 255 ∧ 100 ≤ 255 ∧ 50 ≤ 255) ∧
    rgb332 200 100 50 [7, 9]
      = [7, 9] ++ [((200 >>> 5) <<< 5) ||| ((100 >>> 5) <<< 2) ||| (50 >>> 6)] :=
  ⟨by decide, (rgb332_spec 200 100 50 [7, 9] (by decide) (by decide) (by decide)).1⟩

/-- Claim C2: for 8-bit channels `r`, `g`, `b` and any buffer, `rgb565` appends
exactly two bytes, the high byte `(v >> 8) & 0xFF` and then the low byte
`v & 0xFF` of the 16-bit value `v = ((r>>3)<<11) | ((g>>2)<<5) | (b>>3)`, so
that read big-endian they give `v` back.  White gives [0xFF, 0xFF], black
[0x00, 0x00] and red [0xF8, 0x00]. -/
theorem rgb565_spec (r g b : Nat) (buf : Buffer) (hr : r ≤ 255) (hg : g ≤ 255)
    (hb : b ≤ 255) :
    rgb565 r g b buf
      = buf ++ [((((r >>> 3) <<< 11) ||| ((g >>> 2) <<< 5) ||| (b >>> 3)) >>> 8) &&& 0xFF,
          (((r >>> 3) <<< 11) ||| ((g >>> 2) <<< 5) ||| (b >>> 3)) &&& 0xFF]
    ∧ (rgb565 r g b buf).length = buf.length + 2
    ∧ (((((r >>> 3) <<< 11) ||| ((g >>> 2) <<< 5) ||| (b >>> 3)) >>> 8) &&& 0xFF) * 256
        + ((((r >>> 3) <<< 11) ||| ((g >>> 2) <<< 5) ||| (b >>> 3)) &&& 0xFF)
        = ((r >>> 3) <<< 11) ||| ((g >>> 2) <<< 5) ||| (b >>> 3)
    ∧ ((r >>> 3) <<< 11) ||| ((g >>> 2) <<< 5) ||| (b >>> 3) < 65536
    ∧ rgb565 255 255 255 buf = buf ++ [0xFF, 0xFF]
    ∧ rgb565 0 0 0 buf = buf ++ [0x00, 0x00]
    ∧ rgb565 255 0 0 buf = buf ++ [0xF8, 0x00] := by
  have hg2 : g >>> 2 < 64 := by rw [Nat.shiftRight_eq_div_pow]; omega
  have hb3 : b >>> 3 < 32 := by rw [Nat.shiftRight_eq_div_pow]; omega
  have hp : ((r >>> 3) <<< 11) ||| ((g >>> 2) <<< 5) ||| (b >>> 3)
      = r / 8 * 2048 + g / 4 * 32 + b / 8 := by
    rw [pack565_eq _ _ _ hg2 hb3]
    simp only [Nat.shiftRight_eq_div_pow]
  have hv := rgb565_eq r g b buf hr hg hb
  rw [hp]
  simp only [and_0xFF, Nat.shiftRight_eq_div_pow]
  refine ⟨?_, ?_, ?_, ?_, ?_, ?_, ?_⟩
  · rw [hv]
    congr 2
    omega
  · rw [hv]; simp
  · omega
  · omega
  all_goals (rw [rgb565_append]; rfl)

/-- Claim C2, instance: the colour (200, 100, 50) appended to a buffer holding
two bytes gives the bytes 0xCB and 0x26. -/
theorem rgb565_spec_witness :
    (200 ≤ 255 ∧ 100 ≤ 255 ∧ 50 ≤ 255) ∧
    rgb565 200 100 50 [7, 9] = [7, 9] ++ [0xCB, 0x26] :=
  ⟨by decide, (rgb565_spec 200 100 50 [7, 9] (by decide) (by decide) (by decide)).1⟩

/-! ### Loops that only append -/

/-- A loop whose body only appends yields the initial buffer followed by the
groups appended in each round, in order. -/
theorem foldl_append_eq {α : Type} (f : α → Buffer → Buffer)
    (hf : ∀ a buf, f a buf = buf ++ f a []) (l : List α) (init : Buffer) :
    l.foldl (fun buf a => f a buf) init = init ++ l.flatMap (fun a => f a []) := by
  induction l generalizing init with
  | nil => simp
  | cons a t ih =>
    rw [List.foldl_cons, ih, hf a init, List.flatMap_cons, List.append_assoc]

/-- Groups of one size `k`: the concatenation has `k` bytes per group. -/
theorem length_flatMap_const {α : Type} (f : α → Buffer) (k : Nat)
    (hk : ∀ a, (f a).length = k) (l : List α) :
    (l.flatMap f).length = l.length * k := by
  induction l with
  | nil => simp
  | cons a t ih =>
    rw [List.flatMap_cons, List.length_append, ih, hk a, List.length_cons]
    ring

/-- Groups of one size `k` over the indices `0, ..., n - 1`: the `k` bytes at
offset `i * k` are the group of index `i`. -/
theorem range_flatMap_slice (f : Nat → Buffer) (k : Nat)
    (hk : ∀ a, (f a).length = k) (n i : Nat) (hi : i < n) :
    (((List.range n).flatMap f).drop (i * k)).take k = f i := by
  induction n with
  | zero => omega
  | succ n ih =>
    have hlen : ((List.range n).flatMap f).length = n * k := by
      rw [length_flatMap_const f k hk, List.length_range]
    rw [List.range_succ, List.flatMap_append, List.flatMap_singleton]
    rcases Nat.lt_succ_iff_lt_or_eq.mp hi with h | h
    · have h1 : i * k + k ≤ n * k := by
        have : (i + 1) * k ≤ n * k := Nat.mul_le_mul_right k h
        rw [Nat.add_mul, Nat.one_mul] at this
        exact this
      rw [List.drop_append_of_le_length (by rw [hlen]; omega),
        List.take_append_of_le_length (by rw [List.length_drop, hlen]; omega)]
      exact ih h
    · subst h
      rw [List.drop_left' hlen]
      exact List.take_of_length_le (by rw [hk])

/-- Inside a list, a slice that lies within an earlier, longer slice can be cut
from that slice instead. -/
theorem slice_of_slice (l : Buffer) (p q m k : Nat) (h : q + k ≤ m) :
    (l.drop (p + q)).take k = ((((l.drop p).take m).drop q).take k) := by
  rw [List.drop_take, List.take_take, List.drop_drop, Nat.min_eq_left (by omega)]

/-! ### The shape of the output buffer -/

/-- With an encoder that only appends, the buffer of `converterImpl` is the
four header bytes followed by the groups of the pixels, rows from top to
bottom and each row from left to right. -/
theorem buildBuffer_eq (img : Image) (conv : Nat → Nat → Nat → Buffer → Buffer)
    (hconv : ∀ r g b buf, conv r g b buf = buf ++ conv r g b []) :
    buildBuffer img conv
      = [byteOfInt (Int.land img.Dx 0xFF), byteOfInt (Int.land (img.Dx >>> 8) 0xFF),
          byteOfInt (Int.land img.Dy 0xFF), byteOfInt (Int.land (img.Dy >>> 8) 0xFF)]
        ++ (List.range img.Dy.toNat).flatMap (fun (y : Nat) =>
            (List.range img.Dx.toNat).flatMap (fun (x : Nat) =>
              conv ((img.At (x : Int) (y : Int)).r >>> 8) ((img.At (x : Int) (y : Int)).g >>> 8)
                ((img.At (x : Int) (y : Int)).b >>> 8) [])) := by
  have inner : ∀ (y : Nat) (buf : Buffer),
      (List.range img.Dx.toNat).foldl
          (fun buf (x : Nat) => conv ((img.At (x : Int) (y : Int)).r >>> 8)
            ((img.At (x : Int) (y : Int)).g >>> 8) ((img.At (x : Int) (y : Int)).b >>> 8) buf) buf
        = buf ++ (List.range img.Dx.toNat).flatMap (fun (x : Nat) =>
            conv ((img.At (x : Int) (y : Int)).r >>> 8) ((img.At (x : Int) (y : Int)).g >>> 8)
              ((img.At (x : Int) (y : Int)).b >>> 8) []) := fun y buf =>
    foldl_append_eq
      (fun (x : Nat) buf => conv ((img.At (x : Int) (y : Int)).r >>> 8)
        ((img.At (x : Int) (y : Int)).g >>> 8) ((img.At (x : Int) (y : Int)).b >>> 8) buf)
      (fun x buf => hconv _ _ _ buf) _ buf
  have outer := foldl_append_eq
    (fun (y : Nat) buf => (List.range img.Dx.toNat).foldl
      (fun buf (x : Nat) => conv ((img.At (x : Int) (y : Int)).r >>> 8)
        ((img.At (x : Int) (y : Int)).g >>> 8) ((img.At (x : Int) (y : Int)).b >>> 8) buf) buf)
    (fun y buf => by
      show List.foldl _ buf _ = buf ++ List.foldl _ [] _
      rw [inner y buf, inner y []]; rfl)
    (List.range img.Dy.toNat)
    [byteOfInt (Int.land img.Dx 0xFF), byteOfInt (Int.land (img.Dx >>> 8) 0xFF),
      byteOfInt (Int.land img.Dy 0xFF), byteOfInt (Int.land (img.Dy >>> 8) 0xFF)]
  refine outer.trans ?_
  simp only [inner, List.nil_append]

/-- The header byte `byte(v & 0xFF)` of a dimension that is not negative. -/
theorem header_lo (n : Nat) : byteOfInt (Int.land (n : Int) 0xFF) = n % 256 := by
  show (((n &&& 255 : Nat) : Int) % 256).toNat = n % 256
  rw [and_0xFF]
  omega

/-- The header byte `byte((v >> 8) & 0xFF)` of a dimension that is not negative. -/
theorem header_hi (n : Nat) :
    byteOfInt (Int.land ((n : Int) >>> 8) 0xFF) = n / 256 % 256 := by
  show ((((n >>> 8) &&& 255 : Nat) : Int) % 256).toNat = n / 256 % 256
  rw [and_0xFF, Nat.shiftRight_eq_div_pow]
  omega

/-- The group `rgb332` appends always has one byte. -/
theorem rgb332_length (r g b : Nat) : (rgb332 r g b []).length = 1 := by
  simp [rgb332, WriteByte]

/-- The group `rgb565` appends always has two bytes. -/
theorem rgb565_length (r g b : Nat) : (rgb565 r g b []).length = 2 := by
  simp [rgb565, WriteByte]

/-- The length of the buffer for an encoder that appends `k` bytes per pixel. -/
theorem buildBuffer_length (img : Image) (conv : Nat → Nat → Nat → Buffer → Buffer)
    (k : Nat) (hconv : ∀ r g b buf, conv r g b buf = buf ++ conv r g b [])
    (hk : ∀ r g b, (conv r g b []).length = k) :
    (buildBuffer img conv).length = 4 + img.Dx.toNat * img.Dy.toNat * k := by
  rw [buildBuffer_eq img conv hconv, List.length_append,
    length_flatMap_const _ (img.Dx.toNat * k) (fun y => by
      rw [length_flatMap_const _ k (fun x => hk _ _ _), List.length_range]),
    List.length_range]
  simp only [List.length_cons, List.length_nil]
  ring

/-- The group of the pixel at column `x` of row `y`, for an encoder that
appends `k` bytes per pixel: it starts `(y * width + x) * k` bytes after the
header. -/
theorem buildBuffer_slice (img : Image) (conv : Nat → Nat → Nat → Buffer → Buffer)
    (k : Nat) (hconv : ∀ r g b buf, conv r g b buf = buf ++ conv r g b [])
    (hk : ∀ r g b, (conv r g b []).length = k)
    (x y : Nat) (hx : x < img.Dx.toNat) (hy : y < img.Dy.toNat) :
    ((buildBuffer img conv).drop (4 + (y * img.Dx.toNat + x) * k)).take k
      = conv ((img.At (x : Int) (y : Int)).r >>> 8) ((img.At (x : Int) (y : Int)).g >>> 8)
          ((img.At (x : Int) (y : Int)).b >>> 8) [] := by
  have hrow : ∀ y : Nat, ((List.range img.Dx.toNat).flatMap (fun (x : Nat) =>
      conv ((img.At (x : Int) (y : Int)).r >>> 8) ((img.At (x : Int) (y : Int)).g >>> 8)
        ((img.At (x : Int) (y : Int)).b >>> 8) [])).length = img.Dx.toNat * k := fun y => by
    rw [length_flatMap_const _ k (fun x => hk _ _ _), List.length_range]
  have hxk : x * k + k ≤ img.Dx.toNat * k := by
    have h : (x + 1) * k ≤ img.Dx.toNat * k := Nat.mul_le_mul_right k hx
    rw [Nat.add_mul, Nat.one_mul] at h
    exact h
  have hoff : 4 + (y * img.Dx.toNat + x) * k = 4 + (y * (img.Dx.toNat * k) + x * k) := by
    ring
  have hdrop : ∀ (a b c d : Nat) (l : Buffer) (n : Nat),
      ([a, b, c, d] ++ l).drop (4 + n) = l.drop n := by
    intro a b c d l n
    exact @List.drop_append _ [a, b, c, d] l n
  rw [buildBuffer_eq img conv hconv, hoff, hdrop,
    slice_of_slice _ (y * (img.Dx.toNat * k)) (x * k) (img.Dx.toNat * k) k hxk,
    range_flatMap_slice _ (img.Dx.toNat * k) hrow _ y hy,
    range_flatMap_slice _ k (fun x => hk _ _ _) _ x hx]

/-- Both encoders only append, and each appends groups of its own fixed size:
one byte for `rgb332`, two bytes for `rgb565`. -/
theorem encoder_props (conv : Nat → Nat → Nat → Buffer → Buffer) (k : Nat)
    (h : (conv = rgb332 ∧ k = 1) ∨ (conv = rgb565 ∧ k = 2)) :
    (∀ r g b buf, conv r g b buf = buf ++ conv r g b []) ∧
    (∀ r g b, (conv r g b []).length = k) := by
  rcases h with ⟨rfl, rfl⟩ | ⟨rfl, rfl⟩
  · exact ⟨rgb332_append, rgb332_length⟩
  · exact ⟨rgb565_append, rgb565_length⟩

/-- Either encoder comes with its group size. -/
theorem encoder_size (conv : Nat → Nat → Nat → Buffer → Buffer)
    (h : conv = rgb332 ∨ conv = rgb565) :
    ∃ k, (conv = rgb332 ∧ k = 1) ∨ (conv = rgb565 ∧ k = 2) := by
  rcases h with h | h
  · exact ⟨1, Or.inl ⟨h, rfl⟩⟩
  · exact ⟨2, Or.inr ⟨h, rfl⟩⟩

/-- For dimensions that are not negative, the buffer is the four header bytes
(low and high byte of the width, low and high byte of the height) followed by
a pixel stream of `k` bytes per pixel. -/
theorem buildBuffer_shape (img : Image) (conv : Nat → Nat → Nat → Buffer → Buffer)
    (k : Nat) (hconv : ∀ r g b buf, conv r g b buf = buf ++ conv r g b [])
    (hk : ∀ r g b, (conv r g b []).length = k)
    (hW0 : 0 ≤ img.Dx) (hH0 : 0 ≤ img.Dy) :
    ∃ stream : Buffer,
      buildBuffer img conv
        = [img.Dx.toNat % 256, img.Dx.toNat / 256 % 256,
            img.Dy.toNat % 256, img.Dy.toNat / 256 % 256] ++ stream
      ∧ stream.length = img.Dx.toNat * img.Dy.toNat * k := by
  have hlen := buildBuffer_length img conv k hconv hk
  have heq := buildBuffer_eq img conv hconv
  obtain ⟨w, hw⟩ := Int.eq_ofNat_of_zero_le hW0
  obtain ⟨h, hh⟩ := Int.eq_ofNat_of_zero_le hH0
  rw [hw, hh] at heq hlen
  rw [header_lo, header_hi, header_lo, header_hi] at heq
  rw [hw, hh]
  refine ⟨_, heq, ?_⟩
  rw [heq, List.length_append] at hlen
  simp only [List.length_cons, List.length_nil] at hlen
  omega

/-- Every write `converterImpl` attempts goes to the destination path and
carries the buffer built from the decoded image. -/
theorem converterImpl_write_mem (env : Env) (inp out : String)
    (conv : Nat → Nat → Nat → Buffer → Buffer) (img : Image)
    (hd : env.Decode inp = .ok img) (p : String) (data : Buffer) (ok : Bool)
    (hw : Event.Write p data ok ∈ (converterImpl env inp out conv).events) :
    p = out ∧ data = buildBuffer img conv := by
  cases hO : env.Open inp with
  | some e => simp [converterImpl, hO] at hw
  | none =>
    cases hC : env.Create out with
    | some e => simp [converterImpl, hO, hd, hC] at hw
    | none =>
      cases hW : env.Write out (buildBuffer img conv) with
      | some e =>
        simp [converterImpl, hO, hd, hC, hW] at hw
        exact ⟨hw.1, hw.2.1⟩
      | none =>
        simp [converterImpl, hO, hd, hC, hW] at hw
        exact ⟨hw.1, hw.2.1⟩

/-- When opening, decoding, creating and writing all succeed, `converterImpl`
returns `nil` after writing the buffer built from the decoded image. -/
theorem converterImpl_success (env : Env) (inp out : String)
    (conv : Nat → Nat → Nat → Buffer → Buffer) (img : Image)
    (ho : env.Open inp = none) (hd : env.Decode inp = .ok img)
    (hc : env.Create out = none) (hw : env.Write out (buildBuffer img conv) = none) :
    converterImpl env inp out conv
      = { err := none,
          events := [.Open inp true, .Decode inp true, .Create out true,
            .Write out (buildBuffer img conv) true, .Close out, .Close inp] } := by
  simp [converterImpl, ho, hd, hc, hw]

/-- When opening, decoding and creating succeed, `converterImpl` attempts to
write the buffer built from the decoded image to the destination. -/
theorem converterImpl_attempts_write (env : Env) (inp out : String)
    (conv : Nat → Nat → Nat → Buffer → Buffer) (img : Image)
    (ho : env.Open inp = none) (hd : env.Decode inp = .ok img)
    (hc : env.Create out = none) :
    ∃ ok, Event.Write out (buildBuffer img conv) ok
      ∈ (converterImpl env inp out conv).events := by
  cases hW : env.Write out (buildBuffer img conv) with
  | some e => exact ⟨false, by simp [converterImpl, ho, hd, hc, hW]⟩
  | none => exact ⟨true, by simp [converterImpl, ho, hd, hc, hW]⟩

/-- Claim C3: for a decoded image of width `W` and height `H`, both at most
65535, and either encoder, the first four bytes of the buffer `converterImpl`
builds are `W & 0xFF`, `(W >> 8) & 0xFF`, `H & 0xFF`, `(H >> 8) & 0xFF`; read
as two little-endian unsigned 16-bit integers they give exactly `W` and then
`H`.  Every write `converterImpl` attempts for that image carries this buffer. -/
theorem header_spec (img : Image) (conv : Nat → Nat → Nat → Buffer → Buffer)
    (hconv : conv = rgb332 ∨ conv = rgb565)
    (hW0 : 0 ≤ img.Dx) (hW : img.Dx ≤ 65535) (hH0 : 0 ≤ img.Dy) (hH : img.Dy ≤ 65535) :
    (buildBuffer img conv).take 4
      = [img.Dx.toNat &&& 0xFF, (img.Dx.toNat >>> 8) &&& 0xFF,
          img.Dy.toNat &&& 0xFF, (img.Dy.toNat >>> 8) &&& 0xFF]
    ∧ (((img.Dx.toNat &&& 0xFF) + 256 * ((img.Dx.toNat >>> 8) &&& 0xFF) : Nat) : Int)
        = img.Dx
    ∧ (((img.Dy.toNat &&& 0xFF) + 256 * ((img.Dy.toNat >>> 8) &&& 0xFF) : Nat) : Int)
        = img.Dy
    ∧ ∀ (env : Env) (inp out p : String) (data : Buffer) (ok : Bool),
        env.Decode inp = .ok img →
        Event.Write p data ok ∈ (converterImpl env inp out conv).events →
        data.take 4
          = [img.Dx.toNat &&& 0xFF, (img.Dx.toNat >>> 8) &&& 0xFF,
              img.Dy.toNat &&& 0xFF, (img.Dy.toNat >>> 8) &&& 0xFF] := by
  obtain ⟨k, hk⟩ := encoder_size conv hconv
  obtain ⟨happ, hlen⟩ := encoder_props conv k hk
  obtain ⟨stream, hbuf, -⟩ := buildBuffer_shape img conv k happ hlen hW0 hH0
  have htake : (buildBuffer img conv).take 4
      = [img.Dx.toNat &&& 0xFF, (img.Dx.toNat >>> 8) &&& 0xFF,
          img.Dy.toNat &&& 0xFF, (img.Dy.toNat >>> 8) &&& 0xFF] := by
    rw [hbuf]
    simp only [and_0xFF, Nat.shiftRight_eq_div_pow]
    rfl
  refine ⟨htake, ?_, ?_, ?_⟩
  · simp only [and_0xFF, Nat.shiftRight_eq_div_pow]
    omega
  · simp only [and_0xFF, Nat.shiftRight_eq_div_pow]
    omega
  · intro env inp out p data ok hd hw
    rw [(converterImpl_write_mem env inp out conv img hd p data ok hw).2]
    exact htake

/-- Claim C3, instance: the 2x1 image under `rgb565`, converted in an
environment where every call succeeds. -/
theorem header_spec_witness :
    ((rgb565 = rgb332 ∨ rgb565 = rgb565) ∧ 0 ≤ redBlue.Dx ∧ redBlue.Dx ≤ 65535
      ∧ 0 ≤ redBlue.Dy ∧ redBlue.Dy ≤ 65535)
    ∧ (buildBuffer redBlue rgb565).take 4
      = [redBlue.Dx.toNat &&& 0xFF, (redBlue.Dx.toNat >>> 8) &&& 0xFF,
          redBlue.Dy.toNat &&& 0xFF, (redBlue.Dy.toNat >>> 8) &&& 0xFF] :=
  ⟨⟨Or.inr rfl, by decide, by decide, by decide, by decide⟩,
    (header_spec redBlue rgb565 (Or.inr rfl) (by decide) (by decide) (by decide)
      (by decide)).1⟩

/-- Claim C4: for a decoded image of width `W ≥ 0` and height `H ≥ 0`, the
buffer `converterImpl` builds, and hence any buffer it writes to the
destination, is the 4-byte header followed by the pixel stream and nothing
else, of length exactly `4 + W * H * k`, with `k = 1` for `rgb332` and `k = 2`
for `rgb565`; when opening, decoding and creating succeed the write of that
buffer is attempted. -/
theorem length_spec (img : Image) (conv : Nat → Nat → Nat → Buffer → Buffer) (k : Nat)
    (hconv : (conv = rgb332 ∧ k = 1) ∨ (conv = rgb565 ∧ k = 2))
    (hW0 : 0 ≤ img.Dx) (hH0 : 0 ≤ img.Dy) :
    (((buildBuffer img conv).length : Nat) : Int) = 4 + img.Dx * img.Dy * k
    ∧ (∃ header stream : Buffer, buildBuffer img conv = header ++ stream
        ∧ header.length = 4 ∧ ((stream.length : Nat) : Int) = img.Dx * img.Dy * k)
    ∧ (∀ (env : Env) (inp out p : String) (data : Buffer) (ok : Bool),
        env.Decode inp = .ok img →
        Event.Write p data ok ∈ (converterImpl env inp out conv).events →
        p = out ∧ ((data.length : Nat) : Int) = 4 + img.Dx * img.Dy * k)
    ∧ (∀ (env : Env) (inp out : String),
        env.Open inp = none → env.Decode inp = .ok img → env.Create out = none →
        ∃ ok, Event.Write out (buildBuffer img conv) ok
          ∈ (converterImpl env inp out conv).events) := by
  obtain ⟨happ, hlen⟩ := encoder_props conv k hconv
  obtain ⟨stream, hbuf, hstream⟩ := buildBuffer_shape img conv k happ hlen hW0 hH0
  have hw := Int.toNat_of_nonneg hW0
  have hh := Int.toNat_of_nonneg hH0
  have hs : ((stream.length : Nat) : Int) = img.Dx * img.Dy * k := by
    rw [hstream]; push_cast; rw [hw, hh]
  have hl : (((buildBuffer img conv).length : Nat) : Int) = 4 + img.Dx * img.Dy * k := by
    rw [hbuf, List.length_append]; push_cast; rw [hs]; simp
  refine ⟨hl, ⟨_, stream, hbuf, rfl, hs⟩, ?_, ?_⟩
  · intro env inp out p data ok hd hmem
    obtain ⟨hp, hdata⟩ := converterImpl_write_mem env inp out conv img hd p data ok hmem
    rw [hdata]
    exact ⟨hp, hl⟩
  · intro env inp out ho hd hc
    exact converterImpl_attempts_write env inp out conv img ho hd hc

/-- Claim C4, instance: the 2x1 image under `rgb565` gives 4 + 2 * 1 * 2 = 8
bytes. -/
theorem length_spec_witness :
    (((rgb565 = rgb332 ∧ 2 = 1) ∨ (rgb565 = rgb565 ∧ 2 = 2))
      ∧ 0 ≤ redBlue.Dx ∧ 0 ≤ redBlue.Dy)
    ∧ (((buildBuffer redBlue rgb565).length : Nat) : Int)
        = 4 + redBlue.Dx * redBlue.Dy * (2 : Nat) :=
  ⟨⟨Or.inr ⟨rfl, rfl⟩, by decide, by decide⟩,
    (length_spec redBlue rgb565 2 (Or.inr ⟨rfl, rfl⟩) (by decide) (by decide)).1⟩

/-- Claim C5: for a decoded image of width `W` and height `H`, a pixel position
`x < W`, `y < H` and either encoder with group size `k`, the `k` bytes at
offset `4 + (y * W + x) * k` of the buffer `converterImpl` builds (and of any
buffer it writes) are what the encoder appends for the pixel sampled at
`(x, y)`, each 16-bit channel shifted right by 8 and alpha ignored: the stream
is row-major.  For the 2x1 image with red at (0, 0) and blue at (1, 0) the
`rgb332` stream after the header is [0xE0, 0x03]. -/
theorem rowMajor_spec (img : Image) (conv : Nat → Nat → Nat → Buffer → Buffer) (k : Nat)
    (hconv : (conv = rgb332 ∧ k = 1) ∨ (conv = rgb565 ∧ k = 2))
    (x y : Nat) (hx : (x : Int) < img.Dx) (hy : (y : Int) < img.Dy) :
    ((buildBuffer img conv).drop (4 + (y * img.Dx.toNat + x) * k)).take k
      = conv ((img.At (x : Int) (y : Int)).r >>> 8) ((img.At (x : Int) (y : Int)).g >>> 8)
          ((img.At (x : Int) (y : Int)).b >>> 8) []
    ∧ (∀ (env : Env) (inp out p : String) (data : Buffer) (ok : Bool),
        env.Decode inp = .ok img →
        Event.Write p data ok ∈ (converterImpl env inp out conv).events →
        (data.drop (4 + (y * img.Dx.toNat + x) * k)).take k
          = conv ((img.At (x : Int) (y : Int)).r >>> 8)
              ((img.At (x : Int) (y : Int)).g >>> 8)
              ((img.At (x : Int) (y : Int)).b >>> 8) [])
    ∧ (buildBuffer redBlue rgb332).drop 4 = [0xE0, 0x03] := by
  obtain ⟨happ, hlen⟩ := encoder_props conv k hconv
  have hx1 : x < img.Dx.toNat := by omega
  have hy1 : y < img.Dy.toNat := by omega
  have hslice := buildBuffer_slice img conv k happ hlen x y hx1 hy1
  refine ⟨hslice, ?_, by decide⟩
  intro env inp out p data ok hd hmem
  rw [(converterImpl_write_mem env inp out conv img hd p data ok hmem).2]
  exact hslice

/-- Claim C5, instance: the second pixel of the 2x1 image under `rgb565`
occupies the two bytes at offset 6, the encoding of blue. -/
theorem rowMajor_spec_witness :
    (((rgb565 = rgb332 ∧ 2 = 1) ∨ (rgb565 = rgb565 ∧ 2 = 2))
      ∧ ((1 : Nat) : Int) < redBlue.Dx ∧ ((0 : Nat) : Int) < redBlue.Dy)
    ∧ ((buildBuffer redBlue rgb565).drop (4 + (0 * redBlue.Dx.toNat + 1) * 2)).take 2
      = rgb565 ((redBlue.At ((1 : Nat) : Int) ((0 : Nat) : Int)).r >>> 8)
          ((redBlue.At ((1 : Nat) : Int) ((0 : Nat) : Int)).g >>> 8)
          ((redBlue.At ((1 : Nat) : Int) ((0 : Nat) : Int)).b >>> 8) [] :=
  ⟨⟨Or.inr ⟨rfl, rfl⟩, by decide, by decide⟩,
    (rowMajor_spec redBlue rgb565 2 (Or.inr ⟨rfl, rfl⟩) 1 0 (by decide) (by decide)).1⟩

/-- Claim C6: a decoded image whose width or height exceeds 65535 is not
rejected by `converterImpl`: when the four outside calls succeed it returns
`nil` and writes the buffer.  The header's two little-endian 16-bit fields are
`W mod 65536` and `H mod 65536`, so a field differs from a dimension above
65535, while the pixel stream still has all `W * H` groups of `k` bytes. -/
theorem oversize_spec (img : Image) (conv : Nat → Nat → Nat → Buffer → Buffer) (k : Nat)
    (hconv : (conv = rgb332 ∧ k = 1) ∨ (conv = rgb565 ∧ k = 2))
    (hW0 : 0 ≤ img.Dx) (hH0 : 0 ≤ img.Dy)
    (hbig : 65535 < img.Dx ∨ 65535 < img.Dy) :
    (∀ (env : Env) (inp out : String),
        env.Open inp = none → env.Decode inp = .ok img → env.Create out = none →
        env.Write out (buildBuffer img conv) = none →
        converterImpl env inp out conv
          = { err := none,
              events := [.Open inp true, .Decode inp true, .Create out true,
                .Write out (buildBuffer img conv) true, .Close out, .Close inp] })
    ∧ ∃ (b0 b1 b2 b3 : Nat) (stream : Buffer),
        buildBuffer img conv = [b0, b1, b2, b3] ++ stream
        ∧ b0 < 256 ∧ b1 < 256 ∧ b2 < 256 ∧ b3 < 256
        ∧ ((b0 + 256 * b1 : Nat) : Int) = img.Dx % 65536
        ∧ ((b2 + 256 * b3 : Nat) : Int) = img.Dy % 65536
        ∧ (((b0 + 256 * b1 : Nat) : Int) ≠ img.Dx ∨ ((b2 + 256 * b3 : Nat) : Int) ≠ img.Dy)
        ∧ ((stream.length : Nat) : Int) = img.Dx * img.Dy * k := by
  obtain ⟨happ, hlen⟩ := encoder_props conv k hconv
  obtain ⟨stream, hbuf, hstream⟩ := buildBuffer_shape img conv k happ hlen hW0 hH0
  have hw := Int.toNat_of_nonneg hW0
  have hh := Int.toNat_of_nonneg hH0
  refine ⟨fun env inp out ho hd hc hwr => converterImpl_success env inp out conv img ho hd hc hwr,
    _, _, _, _, stream, hbuf, ?_, ?_, ?_, ?_, ?_, ?_, ?_, ?_⟩
  · omega
  · omega
  · omega
  · omega
  · omega
  · omega
  · omega
  · rw [hstream]; push_cast; rw [hw, hh]

/-- Claim C6, instance: an image 65538 pixels wide and one pixel high under
`rgb332`, in an environment where every call succeeds, is converted without
error. -/
theorem oversize_spec_witness :
    (((rgb332 = rgb332 ∧ 1 = 1) ∨ (rgb332 = rgb565 ∧ 1 = 2))
      ∧ 0 ≤ wideImage.Dx ∧ 0 ≤ wideImage.Dy
      ∧ (65535 < wideImage.Dx ∨ 65535 < wideImage.Dy))
    ∧ converterImpl (okEnv wideImage) "in.png" "out.bin" rgb332
        = { err := none,
            events := [.Open "in.png" true, .Decode "in.png" true, .Create "out.bin" true,
              .Write "out.bin" (buildBuffer wideImage rgb332) true, .Close "out.bin",
              .Close "in.png"] } :=
  ⟨⟨Or.inl ⟨rfl, rfl⟩, by decide, by decide, Or.inl (by decide)⟩,
    (oversize_spec wideImage rgb332 1 (Or.inl ⟨rfl, rfl⟩) (by decide) (by decide)
      (Or.inl (by decide))).1 (okEnv wideImage) "in.png" "out.bin" rfl rfl rfl rfl⟩

/-- Claim C7 (RGB332 round trip): for 8-bit channels, the byte `p` that
`rgb332` appends decodes to exactly the quantized channels, `p >> 5 = r >> 5`,
`(p >> 2) & 7 = g >> 5` and `p & 3 = b >> 6`, and the colour rebuilt by
shifting the fields back lies below the input by at most the discarded low
bits: at most 31 for red and green and at most 63 for blue. -/
theorem rgb332_roundtrip (r g b : Nat) (buf : Buffer) (hr : r ≤ 255) (hg : g ≤ 255)
    (hb : b ≤ 255) :
    ∃ p, rgb332 r g b buf = buf ++ [p]
      ∧ p >>> 5 = r >>> 5 ∧ (p >>> 2) &&& 7 = g >>> 5 ∧ p &&& 3 = b >>> 6
      ∧ (p >>> 5) <<< 5 ≤ r ∧ r - ((p >>> 5) <<< 5) ≤ 31
      ∧ ((p >>> 2) &&& 7) <<< 5 ≤ g ∧ g - (((p >>> 2) &&& 7) <<< 5) ≤ 31
      ∧ (p &&& 3) <<< 6 ≤ b ∧ b - ((p &&& 3) <<< 6) ≤ 63 := by
  refine ⟨r / 32 * 32 + g / 32 * 4 + b / 64, rgb332_eq r g b buf hr hg hb, ?_⟩
  have m7 : ∀ x : Nat, x &&& 7 = x % 8 := fun x => Nat.and_pow_two_sub_one_eq_mod x 3
  have m3 : ∀ x : Nat, x &&& 3 = x % 4 := fun x => Nat.and_pow_two_sub_one_eq_mod x 2
  simp only [m7, m3, Nat.shiftRight_eq_div_pow, Nat.shiftLeft_eq]
  norm_num
  omega

/-- Claim C7, instance: the colour (200, 100, 50) encodes to the byte 0xCC,
whose fields are 6, 3 and 0. -/
theorem rgb332_roundtrip_witness :
    (200 ≤ 255 ∧ 100 ≤ 255 ∧ 50 ≤ 255) ∧
    ∃ p, rgb332 200 100 50 [] = [] ++ [p]
      ∧ p >>> 5 = 200 >>> 5 ∧ (p >>> 2) &&& 7 = 100 >>> 5 ∧ p &&& 3 = 50 >>> 6
      ∧ (p >>> 5) <<< 5 ≤ 200 ∧ 200 - ((p >>> 5) <<< 5) ≤ 31
      ∧ ((p >>> 2) &&& 7) <<< 5 ≤ 100 ∧ 100 - (((p >>> 2) &&& 7) <<< 5) ≤ 31
      ∧ (p &&& 3) <<< 6 ≤ 50 ∧ 50 - ((p &&& 3) <<< 6) ≤ 63 :=
  ⟨by decide, rgb332_roundtrip 200 100 50 [] (by decide) (by decide) (by decide)⟩

/-- Claim C8 (RGB565 round trip): for 8-bit channels, the 16-bit value `v` read
big-endian from the two bytes `rgb565` appends decodes to exactly the
quantized channels, `v >> 11 = r >> 3`, `(v >> 5) & 63 = g >> 2` and
`v & 31 = b >> 3`, and the colour rebuilt by shifting the fields back lies
below the input by at most the discarded low bits: at most 7 for red, 3 for
green and 7 for blue. -/
theorem rgb565_roundtrip (r g b : Nat) (buf : Buffer) (hr : r ≤ 255) (hg : g ≤ 255)
    (hb : b ≤ 255) :
    ∃ hi lo v, rgb565 r g b buf = buf ++ [hi, lo] ∧ hi < 256 ∧ lo < 256
      ∧ v = hi * 256 + lo
      ∧ v >>> 11 = r >>> 3 ∧ (v >>> 5) &&& 63 = g >>> 2 ∧ v &&& 31 = b >>> 3
      ∧ (v >>> 11) <<< 3 ≤ r ∧ r - ((v >>> 11) <<< 3) ≤ 7
      ∧ ((v >>> 5) &&& 63) <<< 2 ≤ g ∧ g - (((v >>> 5) &&& 63) <<< 2) ≤ 3
      ∧ (v &&& 31) <<< 3 ≤ b ∧ b - ((v &&& 31) <<< 3) ≤ 7 := by
  refine ⟨(r / 8 * 2048 + g / 4 * 32 + b / 8) / 256,
    (r / 8 * 2048 + g / 4 * 32 + b / 8) % 256, r / 8 * 2048 + g / 4 * 32 + b / 8,
    rgb565_eq r g b buf hr hg hb, ?_⟩
  have m63 : ∀ x : Nat, x &&& 63 = x % 64 := fun x => Nat.and_pow_two_sub_one_eq_mod x 6
  have m31 : ∀ x : Nat, x &&& 31 = x % 32 := fun x => Nat.and_pow_two_sub_one_eq_mod x 5
  simp only [m63, m31, Nat.shiftRight_eq_div_pow, Nat.shiftLeft_eq]
  norm_num
  omega

/-- Claim C8, instance: the colour (200, 100, 50) encodes to the value 0xCB26,
whose fields are 25, 25 and 6. -/
theorem rgb565_roundtrip_witness :
    (200 ≤ 255 ∧ 100 ≤ 255 ∧ 50 ≤ 255) ∧
    ∃ hi lo v, rgb565 200 100 50 [] = [] ++ [hi, lo] ∧ hi < 256 ∧ lo < 256
      ∧ v = hi * 256 + lo
      ∧ v >>> 11 = 200 >>> 3 ∧ (v >>> 5) &&& 63 = 100 >>> 2 ∧ v &&& 31 = 50 >>> 3
      ∧ (v >>> 11) <<< 3 ≤ 200 ∧ 200 - ((v >>> 11) <<< 3) ≤ 7
      ∧ ((v >>> 5) &&& 63) <<< 2 ≤ 100 ∧ 100 - (((v >>> 5) &&& 63) <<< 2) ≤ 3
      ∧ (v &&& 31) <<< 3 ≤ 50 ∧ 50 - ((v &&& 31) <<< 3) ≤ 7 :=
  ⟨by decide, rgb565_roundtrip 200 100 50 [] (by decide) (by decide) (by decide)⟩

/-! ### Command line -/

/-- Every converter call starts by opening the source, so it leaves a trace. -/
theorem Convert_events_ne_nil (c : Converter) (env : Env) (inp out : String) :
    (c.Convert env inp out).events ≠ [] := by
  have h : ∀ conv, (converterImpl env inp out conv).events ≠ [] := by
    intro conv
    cases hO : env.Open inp with
    | some e => simp [converterImpl, hO]
    | none =>
      cases hD : env.Decode inp with
      | error e => simp [converterImpl, hO, hD]
      | ok img =>
        cases hC : env.Create out with
        | some e => simp [converterImpl, hO, hD, hC]
        | none =>
          cases hW : env.Write out (buildBuffer img conv) <;>
            simp [converterImpl, hO, hD, hC, hW]
  cases c
  · exact h rgb332
  · exact h rgb565

/-- With at least three arguments after the program name, `main` looks only at
the first three. -/
theorem main_ignores_extra (env : Env) (prog t inp out : String) (extra : List String) :
    main env (prog :: t :: inp :: out :: extra) = main env [prog, t, inp, out] := by
  simp [main]

/-- Claim C9: with three arguments, the format token `rgb332` makes `main` run
the RGB332 converter on the two paths and `rgb565` the RGB565 converter (an
error of the converter is printed after `error: `); any other token, such as
`foo` or the case variant `RGB332`, makes `main` print an error message naming
the token and return with an empty trace: no converter was called, since a
converter call never leaves the trace empty, and no file was written. -/
theorem format_selection (env : Env) (prog inp out : String) :
    main env [prog, "rgb332", inp, out]
      = (match (Converter.RGB332Converter.Convert env inp out).err with
          | some err => Outcome.returned ("error: " ++ err.Error)
              (Converter.RGB332Converter.Convert env inp out).events
          | none => Outcome.returned ""
              (Converter.RGB332Converter.Convert env inp out).events)
    ∧ main env [prog, "rgb565", inp, out]
      = (match (Converter.RGB565Converter.Convert env inp out).err with
          | some err => Outcome.returned ("error: " ++ err.Error)
              (Converter.RGB565Converter.Convert env inp out).events
          | none => Outcome.returned ""
              (Converter.RGB565Converter.Convert env inp out).events)
    ∧ (∀ t : String, t ≠ "rgb332" → t ≠ "rgb565" →
        main env [prog, t, inp, out]
          = Outcome.returned
              ("error: " ++ t ++ " is not a valid converter(should be rgb332 or rgb565)") [])
    ∧ main env [prog, "foo", inp, out]
        = Outcome.returned
            "error: foo is not a valid converter(should be rgb332 or rgb565)" []
    ∧ main env [prog, "RGB332", inp, out]
        = Outcome.returned
            "error: RGB332 is not a valid converter(should be rgb332 or rgb565)" []
    ∧ (∀ c : Converter, (c.Convert env inp out).events ≠ []) := by
  have hother : ∀ t : String, t ≠ "rgb332" → t ≠ "rgb565" →
      main env [prog, t, inp, out]
        = Outcome.returned
            ("error: " ++ t ++ " is not a valid converter(should be rgb332 or rgb565)") [] := by
    intro t h1 h2
    simp [main, h1, h2]
  refine ⟨?_, ?_, hother, ?_, ?_, fun c => Convert_events_ne_nil c env inp out⟩
  · simp [main]
  · simp [main]
  · exact hother "foo" (by decide) (by decide)
  · exact hother "RGB332" (by decide) (by decide)

/-- Claim C9, instance: the token `Rgb565` is rejected without any call. -/
theorem format_selection_witness :
    ("Rgb565" ≠ "rgb332" ∧ "Rgb565" ≠ "rgb565") ∧
    main (okEnv redBlue) ["prog", "Rgb565", "in.png", "out.bin"]
      = Outcome.returned
          ("error: " ++ "Rgb565" ++ " is not a valid converter(should be rgb332 or rgb565)") [] :=
  ⟨by decide, (format_selection (okEnv redBlue) "prog" "in.png" "out.bin").2.2.1 "Rgb565"
    (by decide) (by decide)⟩

/-- Claim C10 as stated fails: with four arguments after the program name the
argument count is not three, yet `main` prints nothing, runs the RGB332
converter on the first two paths and the destination is created and written.
So it is not true that every invocation with a count other than three is
reported and leaves the files alone. -/
theorem argcount_counterexample :
    (["prog", "rgb332", "in.png", "out.bin", "extra"].length ≠ 4
      ∧ main (okEnv redBlue) ["prog", "rgb332", "in.png", "out.bin", "extra"]
        = Outcome.returned ""
            [.Open "in.png" true, .Decode "in.png" true, .Create "out.bin" true,
              .Write "out.bin" [2, 0, 1, 0, 0xE0, 0x03] true, .Close "out.bin",
              .Close "in.png"])
    ∧ ¬ (∀ (env : Env) (Args : List String), Args.length ≠ 4 →
          ∃ msg, msg ≠ "" ∧ main env Args = Outcome.returned msg []) := by
  have h : main (okEnv redBlue) ["prog", "rgb332", "in.png", "out.bin", "extra"]
      = Outcome.returned ""
          [.Open "in.png" true, .Decode "in.png" true, .Create "out.bin" true,
            .Write "out.bin" [2, 0, 1, 0, 0xE0, 0x03] true, .Close "out.bin",
            .Close "in.png"] := by decide
  refine ⟨⟨by decide, h⟩, ?_⟩
  intro hall
  obtain ⟨msg, hmsg, hm⟩ := hall (okEnv redBlue)
    ["prog", "rgb332", "in.png", "out.bin", "extra"] (by decide)
  rw [h] at hm
  injection hm with h1 h2
  exact hmsg h1.symm

/-- Claim C10, amended: with a program name and fewer than three arguments
after it, `main` prints the usage message and returns with an empty trace (no
converter call, no file I/O); with more than three arguments after the
program name `main` does not reject the invocation but behaves as if only the
first three had been given. -/
theorem argcount_amended (env : Env) (prog : String) (rest : List String)
    (h : rest.length < 3) :
    main env (prog :: rest)
      = Outcome.returned
          ("usage: " ++ prog ++ " <rbg332 or rgb565> <:inputFileName> <:outputFilename>") []
    ∧ (∀ c : Converter, ∀ inp out : String, (c.Convert env inp out).events ≠ [])
    ∧ (∀ (t inp out : String) (extra : List String),
        main env (prog :: t :: inp :: out :: extra) = main env [prog, t, inp, out]) := by
  refine ⟨?_, fun c inp out => Convert_events_ne_nil c env inp out,
    fun t inp out extra => main_ignores_extra env prog t inp out extra⟩
  have hlen : (prog :: rest).length < 4 := by simp only [List.length_cons]; omega
  unfold main
  rw [if_pos hlen]
  simp

/-- Claim C10 amended, instance: only the format token is given. -/
theorem argcount_amended_witness :
    ["rgb332"].length < 3 ∧
    main (okEnv redBlue) ("prog" :: ["rgb332"])
      = Outcome.returned
          ("usage: " ++ "prog" ++ " <rbg332 or rgb565> <:inputFileName> <:outputFilename>") [] :=
  ⟨by decide, (argcount_amended (okEnv redBlue) "prog" ["rgb332"] (by decide)).1⟩

/-! ### Steps and buffers -/

/-- Folding over the concatenation of groups is folding group by group. -/
theorem foldl_flatMap_eq {α β γ : Type} (f : α → List β) (g : γ → β → γ)
    (l : List α) (init : γ) :
    (l.flatMap f).foldl g init = l.foldl (fun acc a => (f a).foldl g acc) init := by
  induction l generalizing init with
  | nil => rfl
  | cons a t ih => rw [List.flatMap_cons, List.foldl_append, ih, List.foldl_cons]

/-- Replaying the buffer steps of an image from the empty buffer gives the
buffer `converterImpl` builds: the `WriteByte` and `conv` steps listed are
exactly the calls that build it, in order. -/
theorem bufferSteps_replay (img : Image) (conv : Nat → Nat → Nat → Buffer → Buffer) :
    (bufferSteps img).foldl (Step.apply conv) [] = buildBuffer img conv := by
  unfold bufferSteps buildBuffer
  simp only [List.foldl_append, foldl_flatMap_eq]
  rfl

/-- What the buffer steps are: a header write, a sampling call at a position
inside the image, or the encoder call on the shifted channels of such a
position. -/
theorem mem_bufferSteps (img : Image) (s : Step) (hs : s ∈ bufferSteps img) :
    (∃ c, s = .WriteByte c) ∨
    ∃ x y : Nat, x < img.Dx.toNat ∧ y < img.Dy.toNat ∧
      (s = .At (x : Int) (y : Int) ∨
        s = .conv ((img.At (x : Int) (y : Int)).r >>> 8)
          ((img.At (x : Int) (y : Int)).g >>> 8) ((img.At (x : Int) (y : Int)).b >>> 8)) := by
  unfold bufferSteps at hs
  rcases List.mem_append.mp hs with h | h
  · left
    simp only [List.mem_cons, List.mem_singleton, List.not_mem_nil, or_false] at h
    rcases h with h | h | h | h <;> exact ⟨_, h⟩
  · right
    obtain ⟨y, hy, h⟩ := List.mem_flatMap.mp h
    obtain ⟨x, hx, h⟩ := List.mem_flatMap.mp h
    refine ⟨x, y, List.mem_range.mp hx, List.mem_range.mp hy, ?_⟩
    simp only [List.mem_cons, List.mem_singleton, List.not_mem_nil, or_false] at h
    exact h

/-- Every position inside the image is sampled and encoded. -/
theorem conv_mem_bufferSteps (img : Image) (x y : Nat) (hx : x < img.Dx.toNat)
    (hy : y < img.Dy.toNat) :
    Step.conv ((img.At (x : Int) (y : Int)).r >>> 8)
      ((img.At (x : Int) (y : Int)).g >>> 8) ((img.At (x : Int) (y : Int)).b >>> 8)
      ∈ bufferSteps img := by
  unfold bufferSteps
  refine List.mem_append.mpr (Or.inr ?_)
  refine List.mem_flatMap.mpr ⟨y, List.mem_range.mpr hy, ?_⟩
  refine List.mem_flatMap.mpr ⟨x, List.mem_range.mpr hx, ?_⟩
  simp

/-- No buffer step is an outside call. -/
theorem bufferSteps_event (img : Image) :
    (bufferSteps img).filterMap Step.event = [] := by
  rw [List.filterMap_eq_nil_iff]
  intro s hs
  rcases mem_bufferSteps img s hs with ⟨c, rfl⟩ | ⟨x, y, -, -, rfl | rfl⟩ <;> rfl

/-- The outside calls among the steps of `converterImpl` are its `events`. -/
theorem converterSteps_events (env : Env) (inp out : String)
    (conv : Nat → Nat → Nat → Buffer → Buffer) :
    (converterSteps env inp out conv).filterMap Step.event
      = (converterImpl env inp out conv).events := by
  cases hO : env.Open inp with
  | some e => simp [converterSteps, converterImpl, hO, Step.event]
  | none =>
    cases hD : env.Decode inp with
    | error e => simp [converterSteps, converterImpl, hO, hD, Step.event]
    | ok img =>
      cases hC : env.Create out with
      | some e =>
        simp [converterSteps, converterImpl, hO, hD, hC, Step.event, bufferSteps_event]
      | none =>
        cases hW : env.Write out (buildBuffer img conv) <;>
          simp [converterSteps, converterImpl, hO, hD, hC, hW, Step.event, bufferSteps_event]

/-- The buffer depends on the image only through its dimensions and, at each
position inside it, through what the encoder does with the shifted red, green
and blue channels there. -/
theorem buildBuffer_congr (img1 img2 : Image)
    (conv1 conv2 : Nat → Nat → Nat → Buffer → Buffer)
    (hW : img1.Dx = img2.Dx) (hH : img1.Dy = img2.Dy)
    (h : ∀ x y : Nat, x < img1.Dx.toNat → y < img1.Dy.toNat → ∀ buf,
      conv1 ((img1.At (x : Int) (y : Int)).r >>> 8) ((img1.At (x : Int) (y : Int)).g >>> 8)
          ((img1.At (x : Int) (y : Int)).b >>> 8) buf
        = conv2 ((img2.At (x : Int) (y : Int)).r >>> 8) ((img2.At (x : Int) (y : Int)).g >>> 8)
          ((img2.At (x : Int) (y : Int)).b >>> 8) buf) :
    buildBuffer img1 conv1 = buildBuffer img2 conv2 := by
  unfold buildBuffer
  simp only [← hW, ← hH]
  apply List.foldl_ext
  intro buf y hy
  apply List.foldl_ext
  intro buf x hx
  exact h x y (List.mem_range.mp hx) (List.mem_range.mp hy) buf

/-! ### Failures of the stages -/

/-- Claim C11: `converterImpl` runs the stages open source, decode, create
destination, write destination in that order.  It returns `nil` exactly when
all four succeed.  Otherwise it returns the cause reported by the first
failing stage wrapped in one layer of context naming that stage (`error
opening image file`, `error decoding image`, `error creating output file`,
`error writing to output file`), and the trace shows that no later stage was
attempted. -/
theorem stage_errors (env : Env) (inp out : String)
    (conv : Nat → Nat → Nat → Buffer → Buffer) :
    ((converterImpl env inp out conv).err = none ↔
      env.Open inp = none ∧ ∃ img, env.Decode inp = .ok img ∧ env.Create out = none
        ∧ env.Write out (buildBuffer img conv) = none)
    ∧ (∀ e, env.Open inp = some e →
        converterImpl env inp out conv
          = { err := some (.wrapped "error opening image file" e),
              events := [.Open inp false] })
    ∧ (∀ e, env.Open inp = none → env.Decode inp = .error e →
        converterImpl env inp out conv
          = { err := some (.wrapped "error decoding image" e),
              events := [.Open inp true, .Decode inp false, .Close inp] })
    ∧ (∀ img e, env.Open inp = none → env.Decode inp = .ok img →
        env.Create out = some e →
        converterImpl env inp out conv
          = { err := some (.wrapped "error creating output file" e),
              events := [.Open inp true, .Decode inp true, .Create out false,
                .Close inp] })
    ∧ (∀ img e, env.Open inp = none → env.Decode inp = .ok img →
        env.Create out = none → env.Write out (buildBuffer img conv) = some e →
        converterImpl env inp out conv
          = { err := some (.wrapped "error writing to output file" e),
              events := [.Open inp true, .Decode inp true, .Create out true,
                .Write out (buildBuffer img conv) false, .Close out, .Close inp] })
    ∧ (∀ img, env.Open inp = none → env.Decode inp = .ok img →
        env.Create out = none → env.Write out (buildBuffer img conv) = none →
        converterImpl env inp out conv
          = { err := none,
              events := [.Open inp true, .Decode inp true, .Create out true,
                .Write out (buildBuffer img conv) true, .Close out, .Close inp] })
    ∧ (∀ (context : String) (e : GoError),
        (GoError.wrapped context e).Error = context ++ ": " ++ e.Error) := by
  refine ⟨?_, ?_, ?_, ?_, ?_, ?_, fun _ _ => rfl⟩
  · cases hO : env.Open inp with
    | some e => simp [converterImpl, hO]
    | none =>
      cases hD : env.Decode inp with
      | error e => simp [converterImpl, hO, hD]
      | ok img =>
        cases hC : env.Create out with
        | some e => simp [converterImpl, hO, hD, hC]
        | none =>
          cases hW : env.Write out (buildBuffer img conv) <;>
            simp [converterImpl, hO, hD, hC, hW]
  · intro e hO
    simp [converterImpl, hO, Errorf]
  · intro e hO hD
    simp [converterImpl, hO, hD, Errorf]
  · intro img e hO hD hC
    simp [converterImpl, hO, hD, hC, Errorf]
  · intro img e hO hD hC hW
    simp [converterImpl, hO, hD, hC, hW, Errorf]
  · intro img hO hD hC hW
    simp [converterImpl, hO, hD, hC, hW]

/-- Claim C11, instance: the destination is created but writing fails with
`no space left on device`. -/
theorem stage_errors_witness :
    ((noWriteEnv redBlue).Open "in.png" = none
      ∧ (noWriteEnv redBlue).Decode "in.png" = .ok redBlue
      ∧ (noWriteEnv redBlue).Create "out.bin" = none
      ∧ (noWriteEnv redBlue).Write "out.bin" (buildBuffer redBlue rgb332)
          = some (.external "no space left on device"))
    ∧ converterImpl (noWriteEnv redBlue) "in.png" "out.bin" rgb332
        = { err := some (.wrapped "error writing to output file"
              (.external "no space left on device")),
            events := [.Open "in.png" true, .Decode "in.png" true, .Create "out.bin" true,
              .Write "out.bin" (buildBuffer redBlue rgb332) false, .Close "out.bin",
              .Close "in.png"] } :=
  ⟨⟨rfl, rfl, rfl, rfl⟩,
    (stage_errors (noWriteEnv redBlue) "in.png" "out.bin" rgb332).2.2.2.2.1 redBlue
      (.external "no space left on device") rfl rfl rfl rfl⟩

/-- Claim C12: whatever the buffer holds and whatever `r`, `g`, `b` are, after
`rgb332` the buffer is its old content followed by the one encoded byte, and
after `rgb565` it is its old content followed by the two encoded bytes: the
old content is unchanged, and the appended bytes are the same for every
buffer, so they depend only on `(r, g, b)`. -/
theorem encoders_append_only (r g b : Nat) (p : Buffer) :
    rgb332 r g b p = p ++ [byte (shl32 (r >>> 5) 5 ||| shl32 (g >>> 5) 2 ||| (b >>> 6))]
    ∧ rgb565 r g b p
      = p ++ [byte ((shl32 (r >>> 3) 11 ||| shl32 (g >>> 2) 5 ||| (b >>> 3)) >>> 8),
          byte ((shl32 (r >>> 3) 11 ||| shl32 (g >>> 2) 5 ||| (b >>> 3)) &&& 0xFF)]
    ∧ (rgb332 r g b p).take p.length = p
    ∧ (rgb565 r g b p).take p.length = p
    ∧ (rgb332 r g b p).length = p.length + 1
    ∧ (rgb565 r g b p).length = p.length + 2
    ∧ (∀ q : Buffer, (rgb332 r g b q).drop q.length = (rgb332 r g b p).drop p.length)
    ∧ (∀ q : Buffer, (rgb565 r g b q).drop q.length = (rgb565 r g b p).drop p.length) := by
  have h332 : ∀ q : Buffer, rgb332 r g b q
      = q ++ [byte (shl32 (r >>> 5) 5 ||| shl32 (g >>> 5) 2 ||| (b >>> 6))] := by
    intro q; simp [rgb332, WriteByte]
  have h565 : ∀ q : Buffer, rgb565 r g b q
      = q ++ [byte ((shl32 (r >>> 3) 11 ||| shl32 (g >>> 2) 5 ||| (b >>> 3)) >>> 8),
          byte ((shl32 (r >>> 3) 11 ||| shl32 (g >>> 2) 5 ||| (b >>> 3)) &&& 0xFF)] := by
    intro q; simp [rgb565, WriteByte]
  refine ⟨h332 p, h565 p, ?_, ?_, ?_, ?_, ?_, ?_⟩
  · rw [h332 p]; simp
  · rw [h565 p]; simp
  · rw [h332 p]; simp
  · rw [h565 p]; simp
  · intro q; rw [h332 p, h332 q]; simp
  · intro q; rw [h565 p, h565 q]; simp

/-! ### Determinism and the arguments of the encoder -/

/-- Claim C13: the output buffer is a function of the width, the height, the
red, green and blue channels sampled inside the image and the encoder only.
Two conversions with the same encoder of images that agree on these build the
same buffer, and whatever the environments and paths of the two runs, the data
they write are byte-identical; in particular two runs on the same image are. -/
theorem conversion_deterministic (img1 img2 : Image)
    (conv : Nat → Nat → Nat → Buffer → Buffer)
    (hW : img1.Dx = img2.Dx) (hH : img1.Dy = img2.Dy)
    (hpix : ∀ x y : Nat, (x : Int) < img1.Dx → (y : Int) < img1.Dy →
      (img1.At (x : Int) (y : Int)).r = (img2.At (x : Int) (y : Int)).r
      ∧ (img1.At (x : Int) (y : Int)).g = (img2.At (x : Int) (y : Int)).g
      ∧ (img1.At (x : Int) (y : Int)).b = (img2.At (x : Int) (y : Int)).b) :
    buildBuffer img1 conv = buildBuffer img2 conv
    ∧ ∀ (env1 env2 : Env) (inp1 inp2 out1 out2 p1 p2 : String) (data1 data2 : Buffer)
        (ok1 ok2 : Bool),
        env1.Decode inp1 = .ok img1 → env2.Decode inp2 = .ok img2 →
        Event.Write p1 data1 ok1 ∈ (converterImpl env1 inp1 out1 conv).events →
        Event.Write p2 data2 ok2 ∈ (converterImpl env2 inp2 out2 conv).events →
        data1 = data2 := by
  have hbuf : buildBuffer img1 conv = buildBuffer img2 conv := by
    apply buildBuffer_congr img1 img2 conv conv hW hH
    intro x y hx hy buf
    obtain ⟨h1, h2, h3⟩ := hpix x y (by omega) (by omega)
    rw [h1, h2, h3]
  refine ⟨hbuf, ?_⟩
  intro env1 env2 inp1 inp2 out1 out2 p1 p2 data1 data2 ok1 ok2 hd1 hd2 hw1 hw2
  rw [(converterImpl_write_mem env1 inp1 out1 conv img1 hd1 p1 data1 ok1 hw1).2,
    (converterImpl_write_mem env2 inp2 out2 conv img2 hd2 p2 data2 ok2 hw2).2]
  exact hbuf

/-- Claim C13, instance: the red and blue image and its translucent variant,
which differ in alpha only, give the same `rgb565` buffer. -/
theorem conversion_deterministic_witness :
    (redBlue.Dx = redBlueTranslucent.Dx ∧ redBlue.Dy = redBlueTranslucent.Dy)
    ∧ buildBuffer redBlue rgb565 = buildBuffer redBlueTranslucent rgb565 :=
  ⟨⟨rfl, rfl⟩,
    (conversion_deterministic redBlue redBlueTranslucent rgb565 rfl rfl
      (fun x y _ _ => by
        by_cases h : (x : Int) = 0 <;> simp [redBlue, redBlueTranslucent, h])).1⟩

/-- An encoder call among the steps of `converterImpl` is one of the buffer
steps of the decoded image. -/
theorem conv_mem_converterSteps (env : Env) (inp out : String)
    (conv : Nat → Nat → Nat → Buffer → Buffer) (img : Image)
    (hd : env.Decode inp = .ok img) (r g b : Nat)
    (h : Step.conv r g b ∈ converterSteps env inp out conv) :
    Step.conv r g b ∈ bufferSteps img := by
  cases hO : env.Open inp with
  | some e => simp [converterSteps, hO] at h
  | none =>
    cases hC : env.Create out with
    | some e => simpa [converterSteps, hO, hd, hC] using h
    | none =>
      cases hW : env.Write out (buildBuffer img conv) <;>
        simpa [converterSteps, hO, hd, hC, hW] using h

/-- When the source opens and decodes, the steps of `converterImpl` are the
two source calls, the buffer steps of the image, and then outside calls only,
the first of which creates the destination; a write among them carries the
built buffer. -/
theorem converterSteps_decoded (env : Env) (inp out : String)
    (conv : Nat → Nat → Nat → Buffer → Buffer) (img : Image)
    (ho : env.Open inp = none) (hd : env.Decode inp = .ok img) :
    ∃ (ok : Bool) (tail : List Step),
      converterSteps env inp out conv
        = [.call (.Open inp true), .call (.Decode inp true)] ++ bufferSteps img
          ++ (.call (.Create out ok) :: tail)
      ∧ (∀ s ∈ tail, ∃ e, s = .call e)
      ∧ (∀ p data ok1, Step.call (.Write p data ok1) ∈ tail →
          p = out ∧ data = buildBuffer img conv) := by
  cases hC : env.Create out with
  | some e =>
    exact ⟨false, [.call (.Close inp)], by simp [converterSteps, ho, hd, hC], by simp,
      by simp⟩
  | none =>
    cases hW : env.Write out (buildBuffer img conv) with
    | some e =>
      refine ⟨true, [.call (.Write out (buildBuffer img conv) false), .call (.Close out),
        .call (.Close inp)], by simp [converterSteps, ho, hd, hC, hW], by simp, ?_⟩
      intro p data ok1 h
      simp at h
      exact ⟨h.1, h.2.1⟩
    | none =>
      refine ⟨true, [.call (.Write out (buildBuffer img conv) true), .call (.Close out),
        .call (.Close inp)], by simp [converterSteps, ho, hd, hC, hW], by simp, ?_⟩
      intro p data ok1 h
      simp at h
      exact ⟨h.1, h.2.1⟩

/-- Claim C14: for an image whose sampler returns red, green and blue values of
at most 65535 inside the image, every encoder call among the steps of
`converterImpl` passes `r`, `g`, `b` of at most 255.  On such arguments the
packed RGB332 value is below 256 and the packed RGB565 value below 65536, so
the three `byte` conversions change nothing.  Accordingly the buffer does not
depend on what the encoder does outside that range, and every position inside
the image does give rise to an encoder call. -/
theorem encoder_args_in_range (img : Image)
    (h16 : ∀ x y : Nat, (x : Int) < img.Dx → (y : Int) < img.Dy →
      (img.At (x : Int) (y : Int)).r ≤ 65535 ∧ (img.At (x : Int) (y : Int)).g ≤ 65535
      ∧ (img.At (x : Int) (y : Int)).b ≤ 65535) :
    (∀ (env : Env) (inp out : String) (conv : Nat → Nat → Nat → Buffer → Buffer)
        (r g b : Nat), env.Decode inp = .ok img →
        Step.conv r g b ∈ converterSteps env inp out conv →
        r ≤ 255 ∧ g ≤ 255 ∧ b ≤ 255
        ∧ shl32 (r >>> 5) 5 ||| shl32 (g >>> 5) 2 ||| (b >>> 6) < 256
        ∧ byte (shl32 (r >>> 5) 5 ||| shl32 (g >>> 5) 2 ||| (b >>> 6))
            = shl32 (r >>> 5) 5 ||| shl32 (g >>> 5) 2 ||| (b >>> 6)
        ∧ shl32 (r >>> 3) 11 ||| shl32 (g >>> 2) 5 ||| (b >>> 3) < 65536
        ∧ byte ((shl32 (r >>> 3) 11 ||| shl32 (g >>> 2) 5 ||| (b >>> 3)) >>> 8)
            = (shl32 (r >>> 3) 11 ||| shl32 (g >>> 2) 5 ||| (b >>> 3)) >>> 8
        ∧ byte ((shl32 (r >>> 3) 11 ||| shl32 (g >>> 2) 5 ||| (b >>> 3)) &&& 0xFF)
            = (shl32 (r >>> 3) 11 ||| shl32 (g >>> 2) 5 ||| (b >>> 3)) &&& 0xFF)
    ∧ (∀ conv1 conv2 : Nat → Nat → Nat → Buffer → Buffer,
        (∀ r g b buf, r ≤ 255 → g ≤ 255 → b ≤ 255 → conv1 r g b buf = conv2 r g b buf) →
        buildBuffer img conv1 = buildBuffer img conv2)
    ∧ (∀ (env : Env) (inp out : String) (conv : Nat → Nat → Nat → Buffer → Buffer)
        (x y : Nat), env.Open inp = none → env.Decode inp = .ok img →
        (x : Int) < img.Dx → (y : Int) < img.Dy →
        Step.conv ((img.At (x : Int) (y : Int)).r >>> 8)
          ((img.At (x : Int) (y : Int)).g >>> 8) ((img.At (x : Int) (y : Int)).b >>> 8)
          ∈ converterSteps env inp out conv) := by
  have hrange : ∀ x y : Nat, x < img.Dx.toNat → y < img.Dy.toNat →
      (img.At (x : Int) (y : Int)).r >>> 8 ≤ 255 ∧ (img.At (x : Int) (y : Int)).g >>> 8 ≤ 255
      ∧ (img.At (x : Int) (y : Int)).b >>> 8 ≤ 255 := by
    intro x y hx hy
    obtain ⟨h1, h2, h3⟩ := h16 x y (by omega) (by omega)
    simp only [Nat.shiftRight_eq_div_pow]
    omega
  refine ⟨?_, ?_, ?_⟩
  · intro env inp out conv r g b hd hmem
    have hb := conv_mem_converterSteps env inp out conv img hd r g b hmem
    have hrgb : r ≤ 255 ∧ g ≤ 255 ∧ b ≤ 255 := by
      rcases mem_bufferSteps img _ hb with ⟨c, hc⟩ | ⟨x, y, hx, hy, hc | hc⟩
      · exact absurd hc (by simp)
      · exact absurd hc (by simp)
      · injection hc with e1 e2 e3
        rw [e1, e2, e3]
        exact hrange x y hx hy
    obtain ⟨hr, hg, hb⟩ := hrgb
    have v565 := value565_eq r g b hr hg hb
    have a1 : shl32 (r >>> 5) 5 < 2 ^ 8 := by
      simp only [shl32, Nat.shiftRight_eq_div_pow, Nat.shiftLeft_eq]; omega
    have a2 : shl32 (g >>> 5) 2 < 2 ^ 8 := by
      simp only [shl32, Nat.shiftRight_eq_div_pow, Nat.shiftLeft_eq]; omega
    have a3 : b >>> 6 < 2 ^ 8 := by
      simp only [Nat.shiftRight_eq_div_pow]; omega
    have v332 : shl32 (r >>> 5) 5 ||| shl32 (g >>> 5) 2 ||| (b >>> 6) < 256 :=
      Nat.or_lt_two_pow (Nat.or_lt_two_pow a1 a2) a3
    have w565 : shl32 (r >>> 3) 11 ||| shl32 (g >>> 2) 5 ||| (b >>> 3) < 65536 := by
      rw [v565]; omega
    refine ⟨hr, hg, hb, v332, Nat.mod_eq_of_lt v332, w565, ?_, ?_⟩
    · simp only [byte, Nat.shiftRight_eq_div_pow] at *
      omega
    · simp only [byte, and_0xFF]
      omega
  · intro conv1 conv2 hagree
    apply buildBuffer_congr img img conv1 conv2 rfl rfl
    intro x y hx hy buf
    obtain ⟨h1, h2, h3⟩ := hrange x y hx hy
    exact hagree _ _ _ buf h1 h2 h3
  · intro env inp out conv x y ho hd hx hy
    obtain ⟨ok, tail, hsteps, -⟩ := converterSteps_decoded env inp out conv img ho hd
    rw [hsteps]
    have hm := conv_mem_bufferSteps img x y (by omega) (by omega)
    simp only [List.mem_append]
    exact Or.inl (Or.inr hm)

/-- Claim C14, instance: the red and blue image has 16-bit channels, so the
encoder call for its first pixel passes (255, 0, 0). -/
theorem encoder_args_in_range_witness :
    ((okEnv redBlue).Decode "in.png" = .ok redBlue
      ∧ Step.conv 255 0 0 ∈ converterSteps (okEnv redBlue) "in.png" "out.bin" rgb332)
    ∧ (255 ≤ 255 ∧ 0 ≤ 255 ∧ 0 ≤ 255
      ∧ shl32 (255 >>> 5) 5 ||| shl32 (0 >>> 5) 2 ||| (0 >>> 6) < 256) :=
  ⟨⟨rfl, by decide⟩,
    let h := (encoder_args_in_range redBlue (fun x y _ _ => by
        by_cases h : (x : Int) = 0 <;> simp [redBlue, h])).1
      (okEnv redBlue) "in.png" "out.bin" rgb332 255 0 0 rfl (by decide)
    ⟨h.1, h.2.1, h.2.2.1, h.2.2.2.1⟩⟩

/-! ### Quantization twice, and failures of the source -/

/-- Claim C15: quantization is idempotent.  For 8-bit channels, take the byte
`p` that `rgb332` appends and rebuild a colour from its fields shifted back to
their 8-bit positions; encoding that colour appends `p` again.  Likewise for
`rgb565` with the 16-bit value `v` read big-endian from its two bytes.  The
rebuilt colours are 8-bit colours. -/
theorem quantize_idempotent (r g b : Nat) (buf : Buffer) (hr : r ≤ 255) (hg : g ≤ 255)
    (hb : b ≤ 255) :
    (∃ p, rgb332 r g b buf = buf ++ [p]
      ∧ (p >>> 5) <<< 5 ≤ 255 ∧ ((p >>> 2) &&& 7) <<< 5 ≤ 255 ∧ (p &&& 3) <<< 6 ≤ 255
      ∧ rgb332 ((p >>> 5) <<< 5) (((p >>> 2) &&& 7) <<< 5) ((p &&& 3) <<< 6) buf
          = rgb332 r g b buf)
    ∧ (∃ hi lo v, rgb565 r g b buf = buf ++ [hi, lo] ∧ v = hi * 256 + lo
      ∧ (v >>> 11) <<< 3 ≤ 255 ∧ ((v >>> 5) &&& 63) <<< 2 ≤ 255 ∧ (v &&& 31) <<< 3 ≤ 255
      ∧ rgb565 ((v >>> 11) <<< 3) (((v >>> 5) &&& 63) <<< 2) ((v &&& 31) <<< 3) buf
          = rgb565 r g b buf) := by
  have m7 : ∀ x : Nat, x &&& 7 = x % 8 := fun x => Nat.and_pow_two_sub_one_eq_mod x 3
  have m3 : ∀ x : Nat, x &&& 3 = x % 4 := fun x => Nat.and_pow_two_sub_one_eq_mod x 2
  have m63 : ∀ x : Nat, x &&& 63 = x % 64 := fun x => Nat.and_pow_two_sub_one_eq_mod x 6
  have m31 : ∀ x : Nat, x &&& 31 = x % 32 := fun x => Nat.and_pow_two_sub_one_eq_mod x 5
  constructor
  · refine ⟨r / 32 * 32 + g / 32 * 4 + b / 64, rgb332_eq r g b buf hr hg hb, ?_⟩
    simp only [m7, m3, Nat.shiftRight_eq_div_pow, Nat.shiftLeft_eq]
    have e1 : (r / 32 * 32 + g / 32 * 4 + b / 64) / 2 ^ 5 * 2 ^ 5 = r / 32 * 32 := by omega
    have e2 : (r / 32 * 32 + g / 32 * 4 + b / 64) / 2 ^ 2 % 8 * 2 ^ 5 = g / 32 * 32 := by
      omega
    have e3 : (r / 32 * 32 + g / 32 * 4 + b / 64) % 4 * 2 ^ 6 = b / 64 * 64 := by omega
    rw [e1, e2, e3]
    refine ⟨by omega, by omega, by omega, ?_⟩
    have k : r / 32 * 32 / 32 * 32 + g / 32 * 32 / 32 * 4 + b / 64 * 64 / 64
        = r / 32 * 32 + g / 32 * 4 + b / 64 := by omega
    rw [rgb332_eq r g b buf hr hg hb,
      rgb332_eq _ _ _ buf (by omega) (by omega) (by omega), k]
  · refine ⟨(r / 8 * 2048 + g / 4 * 32 + b / 8) / 256,
      (r / 8 * 2048 + g / 4 * 32 + b / 8) % 256, r / 8 * 2048 + g / 4 * 32 + b / 8,
      rgb565_eq r g b buf hr hg hb, by omega, ?_⟩
    simp only [m63, m31, Nat.shiftRight_eq_div_pow, Nat.shiftLeft_eq]
    have e1 : (r / 8 * 2048 + g / 4 * 32 + b / 8) / 2 ^ 11 * 2 ^ 3 = r / 8 * 8 := by omega
    have e2 : (r / 8 * 2048 + g / 4 * 32 + b / 8) / 2 ^ 5 % 64 * 2 ^ 2 = g / 4 * 4 := by
      omega
    have e3 : (r / 8 * 2048 + g / 4 * 32 + b / 8) % 32 * 2 ^ 3 = b / 8 * 8 := by omega
    rw [e1, e2, e3]
    refine ⟨by omega, by omega, by omega, ?_⟩
    have k : r / 8 * 8 / 8 * 2048 + g / 4 * 4 / 4 * 32 + b / 8 * 8 / 8
        = r / 8 * 2048 + g / 4 * 32 + b / 8 := by omega
    rw [rgb565_eq r g b buf hr hg hb,
      rgb565_eq _ _ _ buf (by omega) (by omega) (by omega), k]

/-- Claim C15, instance: the colour (200, 100, 50) encodes under `rgb332` to
0xCC, whose rebuilt colour (192, 96, 0) encodes to 0xCC again. -/
theorem quantize_idempotent_witness :
    (200 ≤ 255 ∧ 100 ≤ 255 ∧ 50 ≤ 255) ∧
    ∃ p, rgb332 200 100 50 [] = [] ++ [p]
      ∧ (p >>> 5) <<< 5 ≤ 255 ∧ ((p >>> 2) &&& 7) <<< 5 ≤ 255 ∧ (p &&& 3) <<< 6 ≤ 255
      ∧ rgb332 ((p >>> 5) <<< 5) (((p >>> 2) &&& 7) <<< 5) ((p &&& 3) <<< 6) []
          = rgb332 200 100 50 [] :=
  ⟨by decide, (quantize_idempotent 200 100 50 [] (by decide) (by decide) (by decide)).1⟩

/-- Claim C16: whatever the environment, if opening the source fails or
decoding it fails, `converterImpl` returns an error and its trace holds no
`Create` and no `Write` call, so the destination is neither created, truncated
nor written.  When the source opens and decodes, the steps are: the two source
calls, then all the steps that build the buffer (replaying them gives the
whole buffer), none of which is an outside call, and only then the call that
creates the destination, followed by outside calls only; a write among these
carries the buffer already built. -/
theorem source_failure_leaves_destination (env : Env) (inp out : String)
    (conv : Nat → Nat → Nat → Buffer → Buffer) :
    ((env.Open inp ≠ none ∨ ∃ e, env.Decode inp = .error e) →
      (converterImpl env inp out conv).err ≠ none
      ∧ (∀ p ok, Event.Create p ok ∉ (converterImpl env inp out conv).events)
      ∧ (∀ p data ok, Event.Write p data ok ∉ (converterImpl env inp out conv).events)
      ∧ (∀ p ok, Step.call (.Create p ok) ∉ converterSteps env inp out conv)
      ∧ (∀ p data ok, Step.call (.Write p data ok) ∉ converterSteps env inp out conv))
    ∧ (∀ img, env.Open inp = none → env.Decode inp = .ok img →
        ∃ (ok : Bool) (tail : List Step),
          converterSteps env inp out conv
            = [.call (.Open inp true), .call (.Decode inp true)] ++ bufferSteps img
              ++ (.call (.Create out ok) :: tail)
          ∧ (bufferSteps img).foldl (Step.apply conv) [] = buildBuffer img conv
          ∧ (∀ s ∈ bufferSteps img, ∀ e, s ≠ .call e)
          ∧ (∀ s ∈ tail, ∃ e, s = .call e)
          ∧ (∀ p data ok1, Step.call (.Write p data ok1) ∈ tail →
              p = out ∧ data = buildBuffer img conv))
    ∧ (converterSteps env inp out conv).filterMap Step.event
        = (converterImpl env inp out conv).events := by
  refine ⟨?_, ?_, converterSteps_events env inp out conv⟩
  · intro hfail
    cases hO : env.Open inp with
    | some e => simp [converterImpl, converterSteps, hO]
    | none =>
      rcases hfail with h | ⟨e, hD⟩
      · exact absurd hO h
      · simp [converterImpl, converterSteps, hO, hD]
  · intro img ho hd
    obtain ⟨ok, tail, hsteps, htail, hwrite⟩ :=
      converterSteps_decoded env inp out conv img ho hd
    refine ⟨ok, tail, hsteps, bufferSteps_replay img conv, ?_, htail, hwrite⟩
    intro s hs e he
    rcases mem_bufferSteps img s hs with ⟨c, hc⟩ | ⟨x, y, -, -, hc | hc⟩ <;>
      rw [hc] at he <;> exact absurd he (by simp)

/-- Claim C16, instance: the source is not a decodable image. -/
theorem source_failure_leaves_destination_witness :
    (badImageEnv.Open "in.png" ≠ none ∨ ∃ e, badImageEnv.Decode "in.png" = .error e)
    ∧ (converterImpl badImageEnv "in.png" "out.bin" rgb565).err ≠ none
    ∧ (∀ p ok, Event.Create p ok
        ∉ (converterImpl badImageEnv "in.png" "out.bin" rgb565).events)
    ∧ (∀ p data ok, Event.Write p data ok
        ∉ (converterImpl badImageEnv "in.png" "out.bin" rgb565).events) :=
  have hfail : badImageEnv.Open "in.png" ≠ none
      ∨ ∃ e, badImageEnv.Decode "in.png" = .error e :=
    Or.inr ⟨.external "image: unknown format", rfl⟩
  have h := (source_failure_leaves_destination badImageEnv "in.png" "out.bin" rgb565).1 hfail
  ⟨hfail, h.1, h.2.1, h.2.2.1⟩

end Wio
